import Mathlib

/-!
Verification development for the pattern-driven file cataloging and query
engine of `volcano_base` (`src/volcano_base/load/load_c2w_files.py`).

The embedding below translates the Python classes `RegexLookup` and
`FindFiles` into pure Lean definitions.  Python's in-place mutation of
`self` is modelled by explicit state passing: a method that mutates the
object and may raise becomes a function `FindFiles → ... → FindFiles × Option PyError`
returning the post state (Python object state persists even when an
exception is raised, so the state component is meaningful in the error
case as well).  Python tuples of regex-group strings become `List String`,
Python `set` iteration is modelled by a list in iteration order, and
Python's stable `list.sort(key=..., reverse=...)` is modelled by a stable
insertion sort with the same key comparison (code-point lexicographic
comparison of strings, then lexicographic comparison of key tuples, as in
CPython).
-/

/-- A Record: the tuple of regex-group values extracted from one file path
(`tuple(search.groups())` in `_initial_file_lookup`). -/
abbrev Record := List String

/-- Code-point comparison of characters, as CPython compares strings. -/
def charLt (a b : Char) : Bool := decide (a < b)

/-- Lexicographic strict comparison of lists, parameterized by the
element comparison; mirrors CPython's sequence comparison. -/
def lexLt (lt : α → α → Bool) : List α → List α → Bool
  | [], [] => false
  | [], _ :: _ => true
  | _ :: _, [] => false
  | a :: as, b :: bs =>
      if lt a b then true
      else if lt b a then false
      else lexLt lt as bs

/-- CPython string `<`: lexicographic comparison of the code points. -/
def strLtB (a b : String) : Bool := lexLt charLt a.data b.data

/-- CPython tuple-of-strings `<`: lexicographic over string comparison.
Sort keys in `FindFiles.sort` are tuples of group values. -/
def keyLt (k1 k2 : List String) : Bool := lexLt strLtB k1 k2

/-- Non-strict key comparison (`k1 <= k2`), used to express the order
produced by Python's stable ascending sort. -/
def keyLe (k1 k2 : List String) : Bool := !(keyLt k2 k1)

/-- Non-strict string comparison (`a <= b` in CPython). -/
def strLe (a b : String) : Bool := !(strLtB b a)

/-- Stable insertion: place `a` before the first element `b` with
`le a b`.  Together with `insSort` this is the unique stable sort for the
total preorder `le`, hence a faithful model of CPython's stable
`list.sort`. -/
def ordInsert (le : α → α → Bool) (a : α) : List α → List α
  | [] => [a]
  | b :: l => if le a b then a :: b :: l else b :: ordInsert le a l

/-- Stable insertion sort; models Python's `list.sort` with a key drawn
from a total preorder. -/
def insSort (le : α → α → Bool) : List α → List α
  | [] => []
  | a :: l => ordInsert le a (insSort le l)

/-- The model of the `RegexLookup` object state after `search()` has run:
the schema group names (`group_names.values()`, in order), the file type,
the reverse-search template, the scanned `_combined` set (as a list in
iteration order) and the per-group value sets `_<name>` (diagnostics
payload of a failed `find`). -/
structure RegexLookup where
  ft : String
  group_values : List String
  reverse_search_query : String
  combined : List Record
  per_group : List (List String)
deriving DecidableEq, Repr

/-- The model of a `FindFiles` object: the shared `RegexLookup` plus the
mutable selection state `_matched_files`, `_sort_order`, `_sort_reverse`. -/
structure FindFiles where
  regex : RegexLookup
  matched_files : Option (List Record)
  sort_order : Option (List String)
  sort_reverse : Bool
deriving DecidableEq, Repr

/-- A positional argument of `find` / `keep`: either a single string or an
iterable of strings (`*args: str | Iterable[str]`). -/
inductive QueryArg where
  | str (s : String)
  | iter (l : List String)
deriving DecidableEq, Repr

/-- The exceptions raised by the engine.  `queryNoMatch` is the
`AttributeError` raised by `find` on an empty result, carrying the
per-group value sets; `unknownAttribute` is the `AttributeError` raised
by `_sort_tup` / `_sort_xr` for a sort key that is not a known group or
array attribute. -/
inductive PyError where
  | queryNoMatch (per_group : List (List String))
  | unknownAttribute (available : List String)
deriving DecidableEq, Repr

/-- Wrap single strings in singleton iterables before taking the product
(the `combinations` loop shared by `find` and `keep`). -/
def wrapArgs (args : List QueryArg) : List (List String) :=
  args.map fun
    | .str s => [s]
    | .iter l => l

/-- `itertools.product` over lists of strings, in the same order
(rightmost factor varies fastest). -/
def productL : List (List String) → List (List String)
  | [] => [[]]
  | c :: cs => c.foldr (fun x acc => ((productL cs).map (fun rest => x :: rest)) ++ acc) []

/-- The membership test of one product tuple against one record:
`all(elem in tup for elem in prod_tup)` — each literal may match at any
position of the record tuple. -/
def matchesTup (prod_tup : List String) (tup : Record) : Bool :=
  prod_tup.all (fun elem => tup.contains elem)

/-- The accumulation loop shared by `find` and `keep`: for each product
tuple, extend `out` with every record of `source` containing all its
elements (`out.extend(iter(found_tups))`, skipped when empty). -/
def searchOut (source : List Record) (args : List QueryArg) : List Record :=
  (productL (wrapArgs args)).foldl
    (fun out prod_tup =>
      let found_tups := source.filter (matchesTup prod_tup)
      if found_tups.isEmpty then out else out ++ found_tups)
    []

/-- The sort key of `_sort_tup`: `tuple(x[lookup[attr]] for attr in attributes)`,
where `lookup` maps each group value name to its position. -/
def sortKey (group_values attributes : List String) (x : Record) : List String :=
  attributes.map (fun a => x.getD (group_values.indexOf a) "")

/-- The comparison used by `list.sort(key=sorter, reverse=reverse)` on
matched-file tuples: ascending by key, descending when `reverse`. -/
def pyTupLe (group_values attributes : List String) (reverse : Bool) (a b : Record) : Bool :=
  if reverse then keyLe (sortKey group_values attributes b) (sortKey group_values attributes a)
  else keyLe (sortKey group_values attributes a) (sortKey group_values attributes b)

/-- `FindFiles._sort_tup`: validate the attributes against the group
names, then stable-sort `_matched_files` by the key tuples. -/
def FindFiles.sort_tup (f : FindFiles) (attributes : List String) : FindFiles × Option PyError :=
  match f.matched_files with
  | none => (f, none)
  | some files =>
      if attributes.all (fun a => f.regex.group_values.contains a) then
        let ac := insSort (pyTupLe f.regex.group_values attributes f.sort_reverse) files
        ({ f with matched_files := some ac }, none)
      else
        (f, some (.unknownAttribute f.regex.group_values))

/-- A loaded xarray object, reduced to its attribute dictionary (the only
part `_sort_xr` reads). -/
structure XArray where
  attrs : List (String × String)
deriving DecidableEq, Repr

/-- Attribute lookup on a loaded object (`x.attrs[attr]`). -/
def XArray.attr (x : XArray) (a : String) : String :=
  (x.attrs.lookup a).getD ""

/-- Attribute presence test on a loaded object (`attr in x.attrs`). -/
def XArray.hasAttr (x : XArray) (a : String) : Bool :=
  (x.attrs.lookup a).isSome

/-- The comparison used by `_sort_xr`'s `arrays.sort(key=sorter, reverse=...)`. -/
def pyXrLe (attributes : List String) (reverse : Bool) (a b : XArray) : Bool :=
  if reverse then keyLe (attributes.map b.attr) (attributes.map a.attr)
  else keyLe (attributes.map a.attr) (attributes.map b.attr)

/-- `FindFiles._sort_xr`: check every attribute is present on every array,
then return a stably sorted copy of the list.  Reads `self._sort_reverse`
from the object state. -/
def FindFiles.sort_xr (f : FindFiles) (arrays : List XArray) (attributes : List String) :
    Except PyError (List XArray) :=
  if attributes.all (fun a => arrays.all (fun x => x.hasAttr a)) then
    .ok (insSort (pyXrLe attributes f.sort_reverse) arrays)
  else
    .error (.unknownAttribute ((arrays.headD ⟨[]⟩).attrs.map (·.1)))

/-- The value returned by a successful `sort` call: `self`, or the sorted
external list. -/
inductive SortResult where
  | self
  | arrays (l : List XArray)
deriving DecidableEq, Repr

/-- `FindFiles.sort`: unconditionally re-set `_sort_order` and
`_sort_reverse`, then dispatch on `arrays` / `_matched_files` exactly as
the source does. -/
def FindFiles.sort (f : FindFiles) (attributes : List String) (arrays : Option (List XArray))
    (reverse : Bool) : FindFiles × Except PyError SortResult :=
  let f1 := { f with sort_order := some attributes, sort_reverse := reverse }
  match arrays with
  | some arr =>
      match FindFiles.sort_xr f1 arr attributes with
      | .ok l => (f1, .ok (.arrays l))
      | .error e => (f1, .error e)
  | none =>
      match f1.matched_files with
      | none => (f1, .ok .self)
      | some _ =>
          let r := FindFiles.sort_tup f1 attributes
          match r.2 with
          | none => (r.1, .ok .self)
          | some e => (r.1, .error e)

/-- `FindFiles.find`: unset the sorting, take the product of the wrapped
arguments, collect all records of the index containing each product
tuple, and either install the result or raise carrying the per-group
value sets.  The `_sort_order = None` assignment happens before the empty
check, so it persists when the error is raised. -/
def FindFiles.find (f : FindFiles) (args : List QueryArg) : FindFiles × Option PyError :=
  let f1 := { f with sort_order := none }
  let out := searchOut f1.regex.combined args
  if out.isEmpty then
    (f1, some (.queryNoMatch f1.regex.per_group))
  else
    ({ f1 with matched_files := some out }, none)

/-- `FindFiles.remove`: drop every matched tuple containing any of the
given literals, then re-apply the remembered sort order if one exists. -/
def FindFiles.remove (f : FindFiles) (args : List String) : FindFiles × Option PyError :=
  match f.matched_files with
  | none => (f, none)
  | some files =>
      let kept := files.filter (fun tup => args.all (fun elem => !(tup.contains elem)))
      let f1 := { f with matched_files := some kept }
      match f1.sort_order with
      | none => (f1, none)
      | some attrs => FindFiles.sort_tup f1 attrs

/-- `FindFiles.keep`: the `find` matching logic applied to the current
selection instead of the whole index; never raises on an empty result;
re-applies the remembered sort order afterwards. -/
def FindFiles.keep (f : FindFiles) (args : List QueryArg) : FindFiles × Option PyError :=
  match f.matched_files with
  | none => (f, none)
  | some files =>
      let out := searchOut files args
      let f1 := { f with matched_files := some out }
      match f1.sort_order with
      | none => (f1, none)
      | some attrs => FindFiles.sort_tup f1 attrs

/-- The scan-and-append loop of `keep_most_recent`: walk the (date-sorted)
files and append each one whose identity prefix (`file[:-1]`) has not
been seen yet. -/
def kmrLoop (only_recent : List Record) : List Record → List Record
  | [] => only_recent
  | file :: rest =>
      let tuple_exists := only_recent.any (fun e => e.dropLast == file.dropLast)
      if !tuple_exists || only_recent.isEmpty then kmrLoop (only_recent ++ [file]) rest
      else kmrLoop only_recent rest

/-- `FindFiles.keep_most_recent`: remember the sort state, sort by the
`date` group descending, keep the first record of each identity prefix,
then restore the remembered sort state (or leave the date sort if none
was remembered). -/
def FindFiles.keep_most_recent (f : FindFiles) : FindFiles × Option PyError :=
  match f.matched_files with
  | none => (f, none)
  | some _ =>
      let sorting := f.sort_order
      let reverse := f.sort_reverse
      let s1 := FindFiles.sort f ["date"] none true
      match s1.2 with
      | .error e => (s1.1, some e)
      | .ok _ =>
          match s1.1.matched_files with
          | none => (s1.1, none)
          | some files =>
              let f2 := { s1.1 with matched_files := some (kmrLoop [] files) }
              match sorting with
              | none => (f2, none)
              | some attrs =>
                  let s2 := FindFiles.sort f2 attrs none reverse
                  match s2.2 with
                  | .ok _ => (s2.1, none)
                  | .error e => (s2.1, some e)

/-- The pure-value rendering of `FindFiles.copy` (the aliasing behaviour
of the shallow `__dict__` copy is modelled separately in the heap model
below). -/
def FindFiles.copy (f : FindFiles) : FindFiles := f

/-- The concrete two-group index `{(A,X),(A,Y),(B,X)}` of the query
algebra example, in a fixed iteration order. -/
def c2Catalog : FindFiles :=
  { regex :=
      { ft := ".nc"
        group_values := ["g1", "g2"]
        reverse_search_query := "data/<g1>/<g2><ft>"
        combined := [["A", "X"], ["A", "Y"], ["B", "X"]]
        per_group := [["A", "B"], ["X", "Y"]] }
    matched_files := none
    sort_order := none
    sort_reverse := false }

/-- The C3 counterexample state: a catalog in the Queried state with a
remembered sort order. -/
def c3Catalog : FindFiles :=
  { regex :=
      { ft := ".nc"
        group_values := ["g1", "g2"]
        reverse_search_query := "data/<g1>/<g2><ft>"
        combined := [["A", "X"], ["A", "Y"], ["B", "X"]]
        per_group := [["A", "B"], ["X", "Y"]] }
    matched_files := some [["A", "X"], ["A", "Y"]]
    sort_order := some ["g1"]
    sort_reverse := false }

/-- The C5 counterexample index: a single record `(A,B)` both of whose
values occur in one OR-term. -/
def c5Catalog : FindFiles :=
  { regex :=
      { ft := ".nc"
        group_values := ["g1", "g2"]
        reverse_search_query := "data/<g1>/<g2><ft>"
        combined := [["A", "B"]]
        per_group := [["A"], ["B"]] }
    matched_files := none
    sort_order := none
    sort_reverse := false }

/-- The C7 counterexample state: a Queried catalog with no remembered
sort order. -/
def c7Catalog : FindFiles :=
  { regex :=
      { ft := ".nc"
        group_values := ["g1", "g2"]
        reverse_search_query := "data/<g1>/<g2><ft>"
        combined := [["A", "X"], ["A", "Y"], ["B", "X"]]
        per_group := [["A", "B"], ["X", "Y"]] }
    matched_files := some [["A", "X"]]
    sort_order := none
    sort_reverse := false }

/-- External arrays used by the C7 witness: two objects carrying an `a1`
attribute, given out of order. -/
def c7Arrays : List XArray :=
  [⟨[("a1", "2")]⟩, ⟨[("a1", "1")]⟩]

/-- One operation of the chainable query algebra, as invoked by a caller
on a catalog view. -/
inductive CatalogOp where
  | findOp (args : List QueryArg)
  | keepOp (args : List QueryArg)
  | removeOp (args : List String)
  | sortOp (attributes : List String) (reverse : Bool)
  | sortArraysOp (attributes : List String) (arrays : List XArray) (reverse : Bool)
  | keepMostRecentOp
deriving DecidableEq, Repr

/-- Run one operation and keep the resulting object state (Python object
state persists whether or not the call raised). -/
def applyOp (f : FindFiles) : CatalogOp → FindFiles
  | .findOp args => (FindFiles.find f args).1
  | .keepOp args => (FindFiles.keep f args).1
  | .removeOp args => (FindFiles.remove f args).1
  | .sortOp attributes reverse => (FindFiles.sort f attributes none reverse).1
  | .sortArraysOp attributes arrays reverse => (FindFiles.sort f attributes (some arrays) reverse).1
  | .keepMostRecentOp => (FindFiles.keep_most_recent f).1

/-- Run a sequence of operations left to right. -/
def applyOps (f : FindFiles) : List CatalogOp → FindFiles
  | [] => f
  | op :: ops => applyOps (applyOp f op) ops

/-- Decidable statement that every record of the current selection is a
member of the index list `idx`. -/
def selectionSubset (idx : List Record) (f : FindFiles) : Bool :=
  match f.matched_files with
  | none => true
  | some sel => sel.all (fun r => idx.contains r)

/-- The C10 witness state: a Queried catalog over a three-group schema
whose sort state is absent. -/
def c10Catalog : FindFiles :=
  { regex :=
      { ft := ".nc"
        group_values := ["sim", "attr", "date"]
        reverse_search_query := "data/<sim>/<attr>-<date><ft>"
        combined := [["strong", "T", "20200101"], ["strong", "T", "20210101"]]
        per_group := [["strong"], ["T"], ["20200101", "20210101"]] }
    matched_files := some [["strong", "T", "20200101"], ["strong", "T", "20210101"]]
    sort_order := none
    sort_reverse := false }

/-- The recency-key value read by `keep_most_recent`'s internal
`sort("date", reverse=True)` call: the record entry at the position of
the `date` group. -/
def dateVal (group_values : List String) (x : Record) : String :=
  x.getD (group_values.indexOf "date") ""

/-- The C4 witness state: a Queried catalog holding two records that
differ only in their date value. -/
def c4Catalog : FindFiles :=
  { regex :=
      { ft := ".nc"
        group_values := ["sim", "attr", "date"]
        reverse_search_query := "data/<sim>/<attr>-<date><ft>"
        combined := [["strong", "T", "20200101"], ["strong", "T", "20210101"]]
        per_group := [["strong"], ["T"], ["20200101", "20210101"]] }
    matched_files := some [["strong", "T", "20200101"], ["strong", "T", "20210101"]]
    sort_order := none
    sort_reverse := false }

/-- The C9 witness state: a fresh (Unqueried) catalog over a three-group
schema. -/
def c9Catalog : FindFiles :=
  { regex :=
      { ft := ".nc"
        group_values := ["sim", "attr", "date"]
        reverse_search_query := "data/<sim>/<attr>-<date><ft>"
        combined := [["strong", "T", "20200101"], ["strong", "T", "20210101"],
          ["weak", "U", "20200101"]]
        per_group := [["strong", "weak"], ["T", "U"], ["20200101", "20210101"]] }
    matched_files := none
    sort_order := none
    sort_reverse := false }

/-- The C9 witness operation sequence exercising every query-algebra
operation. -/
def c9Ops : List CatalogOp :=
  [.findOp [.str "strong"], .sortOp ["date"] false, .keepOp [.iter ["T", "U"]],
    .removeOp ["20200101"], .keepMostRecentOp,
    .sortArraysOp ["a1"] [⟨[("a1", "1")]⟩] false, .findOp [.str "weak", .str "missing"]]

/-- A heap of allocated Python list objects.  The heap model makes the
aliasing behaviour of `FindFiles.copy` expressible: the shallow
`__dict__` copy shares the `_matched_files` list object (a reference
into this store), and independence of the two views relies on `remove` /
`keep` / `_sort_tup` rebinding the attribute to a freshly allocated list
instead of mutating the shared one in place. -/
abbrev Store := List (List Record)

/-- Dereference a list object. -/
def Store.read (st : Store) (r : Nat) : List Record := st.getD r []

/-- Allocate a fresh list object, returning the extended heap and the new
reference. -/
def Store.alloc (st : Store) (l : List Record) : Store × Nat := (st ++ [l], st.length)

/-- A `FindFiles` object in the heap model: `_matched_files` holds a
reference to a list object rather than the list value. -/
structure HFindFiles where
  regex : RegexLookup
  matched_files : Option Nat
  sort_order : Option (List String)
  sort_reverse : Bool
deriving DecidableEq, Repr

/-- `FindFiles.copy` in the heap model: `result.__dict__.update(self.__dict__)`
copies every attribute, so the new view shares the regex object and the
very same `_matched_files` list reference; nothing is allocated and no
scan is run. -/
def HFindFiles.copy (v : HFindFiles) : HFindFiles := v

/-- The list of records a view's selection currently denotes. -/
def HFindFiles.selection (st : Store) (v : HFindFiles) : Option (List Record) :=
  v.matched_files.map (Store.read st)

/-- `_sort_tup` in the heap model: `ac = self._matched_files.copy()`
followed by `ac.sort(...)` and the rebinding `self._matched_files = ac`
allocates a fresh list and never mutates the referenced one. -/
def HFindFiles.sort_tup (st : Store) (v : HFindFiles) (attributes : List String) :
    Store × HFindFiles × Option PyError :=
  match v.matched_files with
  | none => (st, v, none)
  | some r =>
      if attributes.all (fun a => v.regex.group_values.contains a) then
        let ac := insSort (pyTupLe v.regex.group_values attributes v.sort_reverse)
          (Store.read st r)
        let al := Store.alloc st ac
        (al.1, { v with matched_files := some al.2 }, none)
      else
        (st, v, some (.unknownAttribute v.regex.group_values))

/-- `remove` in the heap model: the list comprehension allocates a fresh
list which is rebound to `self._matched_files`; the re-sort allocates
again. -/
def HFindFiles.remove (st : Store) (v : HFindFiles) (args : List String) :
    Store × HFindFiles × Option PyError :=
  match v.matched_files with
  | none => (st, v, none)
  | some r =>
      let kept := (Store.read st r).filter
        (fun tup => args.all (fun elem => !(tup.contains elem)))
      let al := Store.alloc st kept
      let v1 := { v with matched_files := some al.2 }
      match v1.sort_order with
      | none => (al.1, v1, none)
      | some attrs => HFindFiles.sort_tup al.1 v1 attrs

/-- `keep` in the heap model: `out` is accumulated in a fresh list which
is rebound to `self._matched_files`; the re-sort allocates again. -/
def HFindFiles.keep (st : Store) (v : HFindFiles) (args : List QueryArg) :
    Store × HFindFiles × Option PyError :=
  match v.matched_files with
  | none => (st, v, none)
  | some r =>
      let out := searchOut (Store.read st r) args
      let al := Store.alloc st out
      let v1 := { v with matched_files := some al.2 }
      match v1.sort_order with
      | none => (al.1, v1, none)
      | some attrs => HFindFiles.sort_tup al.1 v1 attrs

/-- A selection-mutating operation of the claim (`remove` or `keep`). -/
inductive HOp where
  | removeOp (args : List String)
  | keepOp (args : List QueryArg)
deriving DecidableEq, Repr

/-- Run one heap-model operation, keeping heap and object state. -/
def applyHOp (st : Store) (v : HFindFiles) : HOp → Store × HFindFiles
  | .removeOp args =>
      let r := HFindFiles.remove st v args
      (r.1, r.2.1)
  | .keepOp args =>
      let r := HFindFiles.keep st v args
      (r.1, r.2.1)

/-- Run a sequence of heap-model operations left to right. -/
def applyHOps (st : Store) (v : HFindFiles) : List HOp → Store × HFindFiles
  | [] => (st, v)
  | op :: ops =>
      let r := applyHOp st v op
      applyHOps r.1 r.2 ops

/-- The C6 witness heap and views: one allocated selection list shared by
the original and its copy. -/
def c6Store : Store := [[["A", "X"], ["A", "Y"]]]

/-- The C6 witness view: a Queried catalog whose selection references the
single allocated list. -/
def c6View : HFindFiles :=
  { regex :=
      { ft := ".nc"
        group_values := ["g1", "g2"]
        reverse_search_query := "data/<g1>/<g2><ft>"
        combined := [["A", "X"], ["A", "Y"], ["B", "X"]]
        per_group := [["A", "B"], ["X", "Y"]] }
    matched_files := some 0
    sort_order := none
    sort_reverse := false }

/-- Consume an exact literal from the front of a character list,
returning the remainder (`None` when the input does not start with it). -/
def dropLit : List Char → List Char → Option (List Char)
  | [], s => some s
  | _ :: _, [] => none
  | c :: cs, d :: ds => if c = d then dropLit cs ds else none

/-- Substring test on character lists; models Python's `in` operator on
strings. -/
def containsSub (sub : List Char) : List Char → Bool
  | [] => (dropLit sub []).isSome
  | c :: cs => (dropLit sub (c :: cs)).isSome || containsSub sub cs

/-- The constructor check of `RegexLookup.__init__`: for every group
value name, `f"<{name}>"` must occur in the reverse-search template,
otherwise a `ValueError` is raised.  The loop runs over
`group_names.values()` only — the `<ft>` placeholder is never checked,
although the raised error message demands `the file type ft` as well.
Returns `true` when construction succeeds. -/
def RegexLookup.init_check (group_values : List String) (reverse_search_query : String) : Bool :=
  group_values.all
    (fun name => containsSub ("<" ++ name ++ ">").data reverse_search_query.data)

/-- One element of a regular expression, sufficient for the shipped
`default_regex` pattern compiled with `re.X`: a literal run, the greedy
`.*`, a greedy or lazy `+` repetition over a character class (optionally
a capture group), and an exact-count repetition over a class (optionally
a capture group). -/
inductive RItem where
  | lit (s : List Char)
  | star
  | plusGreedy (cap : Bool) (cls : Char → Bool)
  | plusLazy (cap : Bool) (cls : Char → Bool)
  | fixedN (cap : Bool) (cls : Char → Bool) (n : Nat)

/-- First successful alternative of a backtracking search. -/
def firstSome : List (Option α) → Option α
  | [] => none
  | some a :: _ => some a
  | none :: rest => firstSome rest

/-- Length of the longest front run of characters in the class. -/
def runLen (cls : Char → Bool) : List Char → Nat
  | [] => 0
  | c :: cs => if cls c then runLen cls cs + 1 else 0

/-- Record a captured group (capture groups are collected innermost-last,
reversed at the end of a match to yield `search.groups()` order). -/
def pushCap (c : Option (List Char)) (caps : List (List Char)) : List (List Char) :=
  match c with
  | none => caps
  | some v => v :: caps

/-- The alternatives one regex element offers on an input, as
`(remaining input, captured text)` pairs in the backtracking preference
order of CPython's engine: greedy repetitions try the longest consumption
first, lazy ones the shortest. -/
def expandItem : RItem → List Char → List (List Char × Option (List Char))
  | .lit l, s =>
      match dropLit l s with
      | some s2 => [(s2, none)]
      | none => []
  | .star, s =>
      ((List.range (s.length + 1)).reverse).map (fun k => (s.drop k, none))
  | .plusGreedy cap cls, s =>
      let r := runLen cls s
      ((List.range r).map (fun i => r - i)).map
        (fun k => (s.drop k, if cap then some (s.take k) else none))
  | .plusLazy cap cls, s =>
      let r := runLen cls s
      ((List.range r).map (fun i => i + 1)).map
        (fun k => (s.drop k, if cap then some (s.take k) else none))
  | .fixedN cap cls n, s =>
      if n ≤ s.length && (s.take n).all cls then
        [(s.drop n, if cap then some (s.take n) else none)]
      else []

/-- Backtracking matcher: match the items in order against a front
segment of the input (no end anchor), returning the captured groups of
the first successful alternative.  The fuel only bounds the recursion
depth; one unit per item suffices. -/
def matchItems : Nat → List RItem → List Char → List (List Char) → Option (List (List Char))
  | 0, _, _, _ => none
  | _ + 1, [], _, caps => some caps.reverse
  | fuel + 1, it :: rest, s, caps =>
      firstSome ((expandItem it s).map (fun p => matchItems fuel rest p.1 (pushCap p.2 caps)))

/-- `re.search` semantics: try every start position left to right and
return the groups of the first match. -/
def reSearch (items : List RItem) (s : List Char) : Option (List String) :=
  (firstSome ((List.range (s.length + 1)).map
    (fun k => matchItems (items.length + 1) items (s.drop k) []))).map
    (fun caps => caps.map (fun cl => String.mk cl))

/-- `\w` for the ASCII inputs at hand (Python's `\w` is Unicode-aware;
every path in the archive naming scheme is ASCII). -/
def wordChar (c : Char) : Bool := c.isAlphanum || c = '_'

/-- The bracket expression `[a-z,A-Z,0-9,_,-]` of `default_regex`; note
that the commas inside the brackets are literal members of the class. -/
def bracketClass (c : Char) : Bool :=
  c.isAlpha || c.isDigit || c = ',' || c = '_' || c = '-'

/-- `.` outside DOTALL: any character except a newline. -/
def anyChar (c : Char) : Bool := c ≠ '\n'

/-- `\d` for ASCII inputs. -/
def digitChar (c : Char) : Bool := c.isDigit

/-- The `default_regex` pattern plus the appended file type `.nc`,
translated element by element from the verbose regex in the source
(`.*ensemble-simulations/` then group 1 `([a-z,A-Z,0-9,_,-]+?)`, then
`/\w+-`, group 2 `(\w+)`, `-`, group 3 `([a-z,A-Z,0-9,_,-]+?)`, `/.*/`,
group 4 `(\w+)`, `-`, group 5 `(..)`, `-`, group 6 `(\d{8})`, and the
appended `.nc` whose leading dot is the any-character metacharacter). -/
def default_regex_items : List RItem :=
  [ .star,
    .lit "ensemble-simulations/".data,
    .plusLazy true bracketClass,
    .lit "/".data,
    .plusGreedy false wordChar,
    .lit "-".data,
    .plusGreedy true wordChar,
    .lit "-".data,
    .plusLazy true bracketClass,
    .lit "/".data,
    .star,
    .lit "/".data,
    .plusGreedy true wordChar,
    .lit "-".data,
    .fixedN true anyChar 2,
    .lit "-".data,
    .fixedN true digitChar 8,
    .fixedN false anyChar 1,
    .lit "nc".data ]

/-- Suffix test on character lists. -/
def hasEnding (sfx s : List Char) : Bool := (dropLit sfx.reverse s.reverse).isSome

/-- The candidate files of `search()`'s `root_path.rglob(f"**/*{self.ft}")`:
the files of the (modelled) filesystem lying under the root directory
whose names end in the file type. -/
def scanCandidates (root ft : String) (fs : List String) : List String :=
  fs.filter (fun p => (dropLit (root.data ++ ['/']) p.data).isSome && hasEnding ft.data p.data)

/-- `re.search` with the default pattern on one path string. -/
def reSearchDefault (p : String) : Option Record :=
  reSearch default_regex_items p.data

/-- `_initial_file_lookup` over the default pattern: the records of the
`_combined` set in scan order (the Python set collapses duplicates; a
list retains them, which is irrelevant for the statements below). -/
def scanRecords (root : String) (fs : List String) : List Record :=
  (scanCandidates root ".nc" fs).filterMap reSearchDefault

/-- Python's `str.replace`: replace every non-overlapping occurrence,
left to right.  The fuel argument is the input length plus one, enough
because every step consumes at least one character for non-empty
patterns (all patterns used are placeholder tokens `<...>`). -/
def replaceAll : Nat → List Char → List Char → List Char → List Char
  | 0, s, _, _ => s
  | _ + 1, [], _, _ => []
  | fuel + 1, c :: cs, pat, rep =>
      match dropLit pat (c :: cs) with
      | some s2 => rep ++ replaceAll fuel s2 pat rep
      | none => c :: replaceAll fuel cs pat rep

/-- `str.replace` packaged on strings. -/
def strReplace (s pat rep : String) : String :=
  String.mk (replaceAll (s.data.length + 1) s.data pat.data rep.data)

/-- `RegexLookup.reverse_search`: substitute each group's value for its
placeholder in the reverse-search template, sequentially in
`group_names.values()` order, then substitute the file type for `<ft>`,
and join the result onto the root path. -/
def RegexLookup.reverse_search (group_values : List String) (reverse_search_query : String)
    (root : String) (file_tuple : List String) (ft : String) : String :=
  let base := (List.zip group_values file_tuple).foldl
    (fun acc p => strReplace acc ("<" ++ p.1 ++ ">") p.2) reverse_search_query
  root ++ "/" ++ strReplace base "<ft>" ft

/-- The group value names of `default_regex`, in order. -/
def default_group_values : List String :=
  ["compset", "ensemble", "sim", "attr", "freq", "date"]

/-- The reverse-search template of `default_regex`. -/
def default_reverse_search_query : String :=
  "ensemble-simulations/<compset>/<compset>-<ensemble>-<sim>/aggregate/<attr>-<freq>-<date><ft>"

/-- `reverse_search` instantiated with the `default_regex` preset. -/
def defaultReverseSearch (root : String) (file_tuple : List String) (ft : String) : String :=
  RegexLookup.reverse_search default_group_values default_reverse_search_query root file_tuple ft

/-- The C1 counterexample filesystem: a single archive file that matches
the default pattern but does not sit at the canonical template location
under the root (an extra `s/` directory and `a/` instead of
`aggregate/`). -/
def c1ScannedPath : String := "/d/s/ensemble-simulations/C/C-e-w/a/T-h0-20200101.nc"

/-- The modelled disk for the C1 counterexample. -/
def c1Fs : List String := [c1ScannedPath]

/-- The canonical-location file of the C1 witness. -/
def c1CanonicalPath : String := "/d/ensemble-simulations/C/C-e-w/aggregate/T-h0-20200101.nc"

/-- The modelled disk for the C1 witness. -/
def c1CanonicalFs : List String := [c1CanonicalPath]

/-- C2.  Query algebra of `find` on the index `{(A,X),(A,Y),(B,X)}`:
`find("A")` selects `{(A,X),(A,Y)}`; `find(["A","B"])` selects all three
records (OR over the iterable); `find("A","X")` selects `{(A,X)}` (AND
across separate terms, matched at any position); `find("A","B")` finds
nothing and raises the query error carrying the per-group value sets,
leaving the selection unset. -/
theorem find_query_algebra :
    ((FindFiles.find c2Catalog [.str "A"]).1.matched_files = some [["A", "X"], ["A", "Y"]] ∧
      (FindFiles.find c2Catalog [.str "A"]).2 = none) ∧
    ((FindFiles.find c2Catalog [.iter ["A", "B"]]).1.matched_files =
        some [["A", "X"], ["A", "Y"], ["B", "X"]] ∧
      (FindFiles.find c2Catalog [.iter ["A", "B"]]).2 = none) ∧
    ((FindFiles.find c2Catalog [.str "A", .str "X"]).1.matched_files = some [["A", "X"]] ∧
      (FindFiles.find c2Catalog [.str "A", .str "X"]).2 = none) ∧
    ((FindFiles.find c2Catalog [.str "A", .str "B"]).1.matched_files = none ∧
      (FindFiles.find c2Catalog [.str "A", .str "B"]).2 =
        some (.queryNoMatch [["A", "B"], ["X", "Y"]])) := by
  decide

/-- C3 counterexample.  A failing `find` call is not a transactional
no-op: on the Queried catalog with remembered sort order `("g1",)`, the
failing call `find("A","B")` leaves the selection untouched but clears
the remembered sort keys to `None`. -/
theorem find_failure_clears_sort_order_counterexample :
    (FindFiles.find c3Catalog [.str "A", .str "B"]).2 =
        some (.queryNoMatch [["A", "B"], ["X", "Y"]]) ∧
    (FindFiles.find c3Catalog [.str "A", .str "B"]).1.matched_files =
        c3Catalog.matched_files ∧
    c3Catalog.sort_order = some ["g1"] ∧
    (FindFiles.find c3Catalog [.str "A", .str "B"]).1.sort_order = none := by
  decide

/-- C3 amended.  A failing `find` leaves the selection and the reverse
flag exactly as they were and reports the per-group value sets as
diagnostic payload, but it always resets the remembered sort keys to
absent (the `_sort_order = None` assignment precedes the raise). -/
theorem find_failure_transactional_amended (f : FindFiles) (args : List QueryArg) (e : PyError)
    (h : (FindFiles.find f args).2 = some e) :
    (FindFiles.find f args).1.matched_files = f.matched_files ∧
    (FindFiles.find f args).1.sort_reverse = f.sort_reverse ∧
    (FindFiles.find f args).1.sort_order = none ∧
    e = .queryNoMatch f.regex.per_group := by
  unfold FindFiles.find at h ⊢
  by_cases hout : (searchOut f.regex.combined args).isEmpty
  · simp [hout] at h ⊢
    exact h.symm
  · simp [hout] at h

/-- Witness for the amended C3 theorem at the concrete Queried catalog:
the failing call keeps selection and reverse flag, clears the sort keys. -/
theorem find_failure_transactional_amended_witness :
    (FindFiles.find c3Catalog [.str "A", .str "B"]).2 =
        some (.queryNoMatch [["A", "B"], ["X", "Y"]]) ∧
    ((FindFiles.find c3Catalog [.str "A", .str "B"]).1.matched_files = c3Catalog.matched_files ∧
      (FindFiles.find c3Catalog [.str "A", .str "B"]).1.sort_reverse = c3Catalog.sort_reverse ∧
      (FindFiles.find c3Catalog [.str "A", .str "B"]).1.sort_order = none ∧
      PyError.queryNoMatch [["A", "B"], ["X", "Y"]] = .queryNoMatch c3Catalog.regex.per_group) :=
  ⟨by decide, find_failure_transactional_amended c3Catalog [.str "A", .str "B"] _ (by decide)⟩

/-- C5 counterexample.  A successful `find` does not de-duplicate: with
the index containing only the record `(A,B)`, the query
`find(["A","B"])` matches that record once per product tuple and the
resulting selection contains it twice. -/
theorem find_duplicate_record_counterexample :
    (FindFiles.find c5Catalog [.iter ["A", "B"]]).2 = none ∧
    (FindFiles.find c5Catalog [.iter ["A", "B"]]).1.matched_files =
        some [["A", "B"], ["A", "B"]] ∧
    (some [["A", "B"], ["A", "B"]] : Option (List Record)).all
        (fun sel => sel.count ["A", "B"] = 2) = true := by
  decide

/-- Strict character comparison is asymmetric. -/
theorem charLt_asym (a b : Char) (h : charLt a b = true) : charLt b a = false := by
  simp only [charLt, decide_eq_true_eq] at h
  simpa [charLt] using lt_asymm h

/-- Strict character comparison is transitive. -/
theorem charLt_trans (a b c : Char) (h1 : charLt a b = true) (h2 : charLt b c = true) :
    charLt a c = true := by
  simp only [charLt, decide_eq_true_eq] at h1 h2 ⊢
  exact lt_trans h1 h2

/-- Characters unrelated by strict comparison in both directions are equal. -/
theorem charLt_conn (a b : Char) (h1 : charLt a b = false) (h2 : charLt b a = false) : a = b := by
  simp only [charLt, decide_eq_false_iff_not] at h1 h2
  exact le_antisymm (le_of_not_lt h2) (le_of_not_lt h1)

/-- Lexicographic comparison is asymmetric whenever the element
comparison is. -/
theorem lexLt_asym {lt : α → α → Bool} (hasym : ∀ a b, lt a b = true → lt b a = false) :
    ∀ l1 l2, lexLt lt l1 l2 = true → lexLt lt l2 l1 = false := by
  intro l1
  induction l1 with
  | nil =>
      intro l2 h
      cases l2 with
      | nil => simp [lexLt] at h
      | cons b bs => simp [lexLt]
  | cons a as ih =>
      intro l2 h
      cases l2 with
      | nil => simp [lexLt] at h
      | cons b bs =>
          by_cases hab : lt a b = true
          · simp [lexLt, hasym a b hab, hab]
          · by_cases hba : lt b a = true
            · simp [lexLt, hab, hba] at h
            · simp only [lexLt, hab, hba, if_false, Bool.false_eq_true] at h ⊢
              exact ih bs h

/-- Lexicographic comparison is transitive whenever the element
comparison is asymmetric, transitive and connected. -/
theorem lexLt_trans {lt : α → α → Bool} (_hasym : ∀ a b, lt a b = true → lt b a = false)
    (htr : ∀ a b c, lt a b = true → lt b c = true → lt a c = true)
    (hconn : ∀ a b, lt a b = false → lt b a = false → a = b) :
    ∀ l1 l2 l3, lexLt lt l1 l2 = true → lexLt lt l2 l3 = true → lexLt lt l1 l3 = true := by
  intro l1
  induction l1 with
  | nil =>
      intro l2 l3 h1 h2
      cases l2 with
      | nil => simp [lexLt] at h1
      | cons b bs =>
          cases l3 with
          | nil => simp [lexLt] at h2
          | cons c cs => simp [lexLt]
  | cons a as ih =>
      intro l2 l3 h1 h2
      cases l2 with
      | nil => simp [lexLt] at h1
      | cons b bs =>
          cases l3 with
          | nil => simp [lexLt] at h2
          | cons c cs =>
              by_cases hab : lt a b = true
              · by_cases hbc : lt b c = true
                · simp [lexLt, htr a b c hab hbc]
                · by_cases hcb : lt c b = true
                  · simp [lexLt, hbc, hcb] at h2
                  · have hbceq : b = c :=
                      hconn b c (by simpa using hbc) (by simpa using hcb)
                    subst hbceq
                    simp [lexLt, hab]
              · by_cases hba : lt b a = true
                · simp [lexLt, hab, hba] at h1
                · have habeq : a = b :=
                    hconn a b (by simpa using hab) (by simpa using hba)
                  subst habeq
                  simp only [lexLt, hab, if_false, Bool.false_eq_true] at h1
                  by_cases hac : lt a c = true
                  · simp [lexLt, hac]
                  · by_cases hca : lt c a = true
                    · simp [lexLt, hac, hca] at h2
                    · simp only [lexLt, hac, hca, if_false, Bool.false_eq_true] at h2 ⊢
                      exact ih bs cs h1 h2

/-- Lists unrelated by lexicographic comparison in both directions are
equal, whenever the same holds for the element comparison. -/
theorem lexLt_conn {lt : α → α → Bool} (hconn : ∀ a b, lt a b = false → lt b a = false → a = b) :
    ∀ l1 l2, lexLt lt l1 l2 = false → lexLt lt l2 l1 = false → l1 = l2 := by
  intro l1
  induction l1 with
  | nil =>
      intro l2 h1 _
      cases l2 with
      | nil => rfl
      | cons b bs => simp [lexLt] at h1
  | cons a as ih =>
      intro l2 h1 h2
      cases l2 with
      | nil => simp [lexLt] at h2
      | cons b bs =>
          by_cases hab : lt a b = true
          · simp [lexLt, hab] at h1
          · by_cases hba : lt b a = true
            · simp [lexLt, hba] at h2
            · have habeq : a = b := hconn a b (by simpa using hab) (by simpa using hba)
              subst habeq
              simp only [lexLt, hab, if_false, Bool.false_eq_true] at h1 h2
              rw [ih bs h1 h2]

/-- String comparison is asymmetric. -/
theorem strLtB_asym (a b : String) (h : strLtB a b = true) : strLtB b a = false :=
  lexLt_asym charLt_asym a.data b.data h

/-- String comparison is transitive. -/
theorem strLtB_trans (a b c : String) (h1 : strLtB a b = true) (h2 : strLtB b c = true) :
    strLtB a c = true :=
  lexLt_trans charLt_asym charLt_trans charLt_conn a.data b.data c.data h1 h2

/-- Strings unrelated by comparison in both directions are equal. -/
theorem strLtB_conn (a b : String) (h1 : strLtB a b = false) (h2 : strLtB b a = false) : a = b := by
  have hd : a.data = b.data := lexLt_conn charLt_conn a.data b.data h1 h2
  cases a
  cases b
  exact congrArg String.mk hd

/-- Key-tuple comparison is asymmetric. -/
theorem keyLt_asym (k1 k2 : List String) (h : keyLt k1 k2 = true) : keyLt k2 k1 = false :=
  lexLt_asym strLtB_asym k1 k2 h

/-- Key-tuple comparison is transitive. -/
theorem keyLt_trans (k1 k2 k3 : List String) (h1 : keyLt k1 k2 = true)
    (h2 : keyLt k2 k3 = true) : keyLt k1 k3 = true :=
  lexLt_trans strLtB_asym strLtB_trans strLtB_conn k1 k2 k3 h1 h2

/-- Key tuples unrelated by comparison in both directions are equal. -/
theorem keyLt_conn (k1 k2 : List String) (h1 : keyLt k1 k2 = false)
    (h2 : keyLt k2 k1 = false) : k1 = k2 :=
  lexLt_conn strLtB_conn k1 k2 h1 h2

/-- Non-strict key comparison is total. -/
theorem keyLe_total (k1 k2 : List String) : keyLe k1 k2 = true ∨ keyLe k2 k1 = true := by
  by_cases h : keyLt k2 k1 = true
  · right
    simp [keyLe, keyLt_asym _ _ h]
  · left
    simp only [keyLe, Bool.not_eq_true'] at *
    simpa using h

/-- Non-strict key comparison is transitive. -/
theorem keyLe_trans (k1 k2 k3 : List String) (h1 : keyLe k1 k2 = true)
    (h2 : keyLe k2 k3 = true) : keyLe k1 k3 = true := by
  simp only [keyLe, Bool.not_eq_true'] at h1 h2 ⊢
  by_cases h31 : keyLt k3 k1 = true
  · by_cases h12 : keyLt k1 k2 = true
    · have := keyLt_trans k3 k1 k2 h31 h12
      rw [this] at h2
      cases h2
    · have h21 : k1 = k2 := keyLt_conn k1 k2 (by simpa using h12) h1
      subst h21
      rw [h31] at h2
      cases h2
  · simpa using h31

/-- Inserting permutes the element onto the front. -/
theorem ordInsert_perm (le : α → α → Bool) (a : α) :
    ∀ l : List α, (ordInsert le a l).Perm (a :: l) := by
  intro l
  induction l with
  | nil => simp [ordInsert]
  | cons b t ih =>
      by_cases h : le a b = true
      · simp [ordInsert, h]
      · simp only [ordInsert, h, if_false, Bool.false_eq_true]
        exact (ih.cons b).trans (List.Perm.swap a b t)

/-- Insertion sort permutes its input; models that `list.sort` reorders
but never adds or removes elements. -/
theorem insSort_perm (le : α → α → Bool) : ∀ l : List α, (insSort le l).Perm l := by
  intro l
  induction l with
  | nil => simp [insSort]
  | cons a t ih => exact (ordInsert_perm le a (insSort le t)).trans (ih.cons a)

/-- Membership in an insertion result. -/
theorem mem_ordInsert (le : α → α → Bool) (a x : α) (l : List α) :
    x ∈ ordInsert le a l ↔ x = a ∨ x ∈ l := by
  rw [(ordInsert_perm le a l).mem_iff]
  simp

/-- Inserting into a sorted list keeps it sorted, for a total transitive
comparison. -/
theorem ordInsert_pairwise (le : α → α → Bool)
    (htot : ∀ a b, le a b = true ∨ le b a = true)
    (htr : ∀ a b c, le a b = true → le b c = true → le a c = true) (a : α) :
    ∀ l : List α, l.Pairwise (fun x y => le x y = true) →
      (ordInsert le a l).Pairwise (fun x y => le x y = true) := by
  intro l
  induction l with
  | nil => simp [ordInsert]
  | cons b t ih =>
      intro h
      rw [List.pairwise_cons] at h
      by_cases hab : le a b = true
      · rw [ordInsert, if_pos hab, List.pairwise_cons]
        refine ⟨?_, List.pairwise_cons.mpr h⟩
        intro x hx
        rcases List.mem_cons.mp hx with rfl | hxt
        · exact hab
        · exact htr a b x hab (h.1 x hxt)
      · rw [ordInsert, if_neg (by simpa using hab), List.pairwise_cons]
        refine ⟨?_, ih h.2⟩
        intro x hx
        rcases (mem_ordInsert le a x t).mp hx with rfl | hxt
        · rcases htot x b with hl | hr
          · cases hab hl
          · exact hr
        · exact h.1 x hxt

/-- Insertion sort sorts, for a total transitive comparison. -/
theorem insSort_pairwise (le : α → α → Bool)
    (htot : ∀ a b, le a b = true ∨ le b a = true)
    (htr : ∀ a b c, le a b = true → le b c = true → le a c = true) :
    ∀ l : List α, (insSort le l).Pairwise (fun x y => le x y = true) := by
  intro l
  induction l with
  | nil => simp [insSort]
  | cons a t ih => exact ordInsert_pairwise le htot htr a (insSort le t) ih

/-- The matched-file comparison is total for either direction of the
reverse flag. -/
theorem pyTupLe_total (gv attrs : List String) (rev : Bool) (a b : Record) :
    pyTupLe gv attrs rev a b = true ∨ pyTupLe gv attrs rev b a = true := by
  cases rev
  · simpa [pyTupLe] using keyLe_total (sortKey gv attrs a) (sortKey gv attrs b)
  · simpa [pyTupLe] using keyLe_total (sortKey gv attrs b) (sortKey gv attrs a)

/-- The matched-file comparison is transitive for either direction of the
reverse flag. -/
theorem pyTupLe_trans (gv attrs : List String) (rev : Bool) (a b c : Record)
    (h1 : pyTupLe gv attrs rev a b = true) (h2 : pyTupLe gv attrs rev b c = true) :
    pyTupLe gv attrs rev a c = true := by
  cases rev <;> simp only [pyTupLe, if_true, if_false, Bool.false_eq_true] at h1 h2 ⊢
  · exact keyLe_trans _ _ _ h1 h2
  · exact keyLe_trans _ _ _ h2 h1

/-- The external-array comparison is total for either direction of the
reverse flag. -/
theorem pyXrLe_total (attrs : List String) (rev : Bool) (a b : XArray) :
    pyXrLe attrs rev a b = true ∨ pyXrLe attrs rev b a = true := by
  cases rev
  · simpa [pyXrLe] using keyLe_total (attrs.map a.attr) (attrs.map b.attr)
  · simpa [pyXrLe] using keyLe_total (attrs.map b.attr) (attrs.map a.attr)

/-- The external-array comparison is transitive for either direction of
the reverse flag. -/
theorem pyXrLe_trans (attrs : List String) (rev : Bool) (a b c : XArray)
    (h1 : pyXrLe attrs rev a b = true) (h2 : pyXrLe attrs rev b c = true) :
    pyXrLe attrs rev a c = true := by
  cases rev <;> simp only [pyXrLe, if_true, if_false, Bool.false_eq_true] at h1 h2 ⊢
  · exact keyLe_trans _ _ _ h1 h2
  · exact keyLe_trans _ _ _ h2 h1

/-- C7 counterexample.  The external-list form of `sort` is not
state-free: on a Queried catalog with no remembered sort state, sorting
an externally supplied list by `a1` overwrites the remembered sort keys
with `("a1",)` (the assignment to `_sort_order` precedes the dispatch on
`arrays`). -/
theorem sort_arrays_overwrites_sort_state_counterexample :
    c7Catalog.sort_order = none ∧
    (FindFiles.sort c7Catalog ["a1"] (some c7Arrays) false).1.sort_order = some ["a1"] ∧
    (FindFiles.sort c7Catalog ["a1"] (some c7Arrays) false).1.matched_files =
      c7Catalog.matched_files := by
  decide

/-- C7 amended.  Given an externally supplied list whose members all
carry the named attributes, `sort` returns that list stably sorted by
those attributes and leaves the catalog's selection unchanged, but it
overwrites the remembered sort state with the given keys and reverse
flag rather than leaving it untouched. -/
theorem sort_arrays_amended (f : FindFiles) (attributes : List String) (arrays : List XArray)
    (reverse : Bool)
    (hattrs : attributes.all (fun a => arrays.all (fun x => x.hasAttr a)) = true) :
    (FindFiles.sort f attributes (some arrays) reverse).1.matched_files = f.matched_files ∧
    (FindFiles.sort f attributes (some arrays) reverse).1.sort_order = some attributes ∧
    (FindFiles.sort f attributes (some arrays) reverse).1.sort_reverse = reverse ∧
    ∃ l, (FindFiles.sort f attributes (some arrays) reverse).2 = .ok (.arrays l) ∧
      l.Perm arrays ∧ l.Pairwise (fun a b => pyXrLe attributes reverse a b = true) := by
  refine ⟨?_, ?_, ?_, ?_⟩
  · simp only [FindFiles.sort, FindFiles.sort_xr, hattrs, if_true]
  · simp only [FindFiles.sort, FindFiles.sort_xr, hattrs, if_true]
  · simp only [FindFiles.sort, FindFiles.sort_xr, hattrs, if_true]
  · refine ⟨insSort (pyXrLe attributes reverse) arrays, ?_, ?_, ?_⟩
    · simp only [FindFiles.sort, FindFiles.sort_xr, hattrs, if_true]
    · exact insSort_perm _ arrays
    · exact insSort_pairwise _ (pyXrLe_total attributes reverse)
        (pyXrLe_trans attributes reverse) arrays

/-- Witness for the amended C7 theorem: sorting two external objects by
`a1` returns them in ascending attribute order while the catalog keeps
its selection and records the new sort state. -/
theorem sort_arrays_amended_witness :
    (["a1"].all (fun a => c7Arrays.all (fun x => x.hasAttr a)) = true) ∧
    ((FindFiles.sort c7Catalog ["a1"] (some c7Arrays) false).1.matched_files =
        c7Catalog.matched_files ∧
      (FindFiles.sort c7Catalog ["a1"] (some c7Arrays) false).1.sort_order = some ["a1"] ∧
      (FindFiles.sort c7Catalog ["a1"] (some c7Arrays) false).1.sort_reverse = false ∧
      ∃ l, (FindFiles.sort c7Catalog ["a1"] (some c7Arrays) false).2 = .ok (.arrays l) ∧
        l.Perm c7Arrays ∧ l.Pairwise (fun a b => pyXrLe ["a1"] false a b = true)) :=
  ⟨by decide, sort_arrays_amended c7Catalog ["a1"] c7Arrays false (by decide)⟩

/-- C10.  On a Queried catalog with no remembered sort order,
`keep_most_recent` leaves the sort state set to the `date` group with
`reverse=True` (the state written by its internal `self.sort("date",
reverse=True)` call is never restored when no sorting was remembered), so
any subsequent `keep`/`remove` re-sorts by descending date. -/
theorem keep_most_recent_sets_date_sort (f : FindFiles) (sel : List Record)
    (hm : f.matched_files = some sel) (hs : f.sort_order = none) :
    (FindFiles.keep_most_recent f).1.sort_order = some ["date"] ∧
    (FindFiles.keep_most_recent f).1.sort_reverse = true := by
  simp only [FindFiles.keep_most_recent, FindFiles.sort, FindFiles.sort_tup, hm, hs]
  by_cases hd : "date" ∈ f.regex.group_values
  · simp [hd]
  · simp [hd]

/-- Witness for the C10 theorem: on the concrete Queried catalog with no
remembered sort state, `keep_most_recent` leaves the date sort behind. -/
theorem keep_most_recent_sets_date_sort_witness :
    (c10Catalog.matched_files = some [["strong", "T", "20200101"], ["strong", "T", "20210101"]] ∧
      c10Catalog.sort_order = none) ∧
    ((FindFiles.keep_most_recent c10Catalog).1.sort_order = some ["date"] ∧
      (FindFiles.keep_most_recent c10Catalog).1.sort_reverse = true) :=
  ⟨⟨rfl, rfl⟩,
    keep_most_recent_sets_date_sort c10Catalog
      [["strong", "T", "20200101"], ["strong", "T", "20210101"]] rfl rfl⟩

/-- Occurrence count of a record in the accumulation loop of
`find`/`keep`: one occurrence per product tuple it matches. -/
theorem searchOut_count (source : List Record) (args : List QueryArg) (r : Record) :
    (searchOut source args).count r =
      ((productL (wrapArgs args)).map
        (fun pt => (source.filter (matchesTup pt)).count r)).sum := by
  unfold searchOut
  generalize productL (wrapArgs args) = L
  suffices h : ∀ (acc : List Record),
      (L.foldl
        (fun out prod_tup =>
          let found_tups := source.filter (matchesTup prod_tup)
          if found_tups.isEmpty then out else out ++ found_tups) acc).count r =
      acc.count r + (L.map (fun pt => (source.filter (matchesTup pt)).count r)).sum by
    simpa using h []
  induction L with
  | nil => simp
  | cons pt L ih =>
      intro acc
      rw [List.foldl_cons, ih]
      by_cases he : (source.filter (matchesTup pt)).isEmpty = true
      · rw [List.isEmpty_iff] at he
        simp [he, Nat.add_assoc]
      · simp only [he, if_false, Bool.false_eq_true, List.count_append, List.map_cons,
          List.sum_cons]
        omega

/-- Membership in the accumulation loop of `find`/`keep`: every selected
record comes from the source list. -/
theorem mem_searchOut (source : List Record) (args : List QueryArg) (r : Record)
    (h : r ∈ searchOut source args) : r ∈ source := by
  unfold searchOut at h
  generalize productL (wrapArgs args) = L at h
  suffices hgen : ∀ (acc : List Record),
      r ∈ L.foldl
        (fun out prod_tup =>
          let found_tups := source.filter (matchesTup prod_tup)
          if found_tups.isEmpty then out else out ++ found_tups) acc →
      r ∈ acc ∨ r ∈ source by
    rcases hgen [] h with hc | hc
    · cases hc
    · exact hc
  clear h
  induction L with
  | nil =>
      intro acc h
      exact Or.inl h
  | cons pt L ih =>
      intro acc h
      rw [List.foldl_cons] at h
      by_cases he : (source.filter (matchesTup pt)).isEmpty = true
      · simp only [he, if_true] at h
        exact ih acc h
      · simp only [he, if_false, Bool.false_eq_true] at h
        rcases ih (acc ++ source.filter (matchesTup pt)) h with hc | hc
        · rcases List.mem_append.mp hc with hc2 | hc2
          · exact Or.inl hc2
          · exact Or.inr (List.mem_of_mem_filter hc2)
        · exact Or.inr hc

/-- C5 amended.  A successful `find` installs the concatenation of the
per-product-tuple result lists without de-duplication: each record occurs
in the selection once for every product tuple it matches (times its
multiplicity in the index iteration), so a record satisfying several
product tuples occurs several times. -/
theorem find_union_count_amended (f : FindFiles) (args : List QueryArg) (sel : List Record)
    (hsel : (FindFiles.find f args).1.matched_files = some sel)
    (hsucc : (FindFiles.find f args).2 = none) :
    ∀ r : Record, sel.count r =
      ((productL (wrapArgs args)).map
        (fun pt => (f.regex.combined.filter (matchesTup pt)).count r)).sum := by
  intro r
  unfold FindFiles.find at hsel hsucc
  by_cases he : (searchOut f.regex.combined args).isEmpty = true
  · simp [he] at hsucc
  · simp only [he, if_false, Bool.false_eq_true, Option.some.injEq] at hsel
    rw [← hsel]
    exact searchOut_count f.regex.combined args r

/-- Witness for the amended C5 theorem at the one-record index `{(A,B)}`:
the record matches both product tuples of `find(["A","B"])` and is
counted twice in the selection. -/
theorem find_union_count_amended_witness :
    ((FindFiles.find c5Catalog [.iter ["A", "B"]]).1.matched_files =
        some [["A", "B"], ["A", "B"]] ∧
      (FindFiles.find c5Catalog [.iter ["A", "B"]]).2 = none) ∧
    (∀ r : Record, (([["A", "B"], ["A", "B"]] : List Record).count r) =
      ((productL (wrapArgs [.iter ["A", "B"]])).map
        (fun pt => (c5Catalog.regex.combined.filter (matchesTup pt)).count r)).sum) :=
  ⟨⟨by decide, by decide⟩,
    find_union_count_amended c5Catalog [.iter ["A", "B"]] [["A", "B"], ["A", "B"]]
      (by decide) (by decide)⟩

/-- Unfolding of the decidable selection-subset statement. -/
theorem selectionSubset_iff (idx : List Record) (f : FindFiles) :
    selectionSubset idx f = true ↔
      ∀ sel, f.matched_files = some sel → ∀ r ∈ sel, r ∈ idx := by
  unfold selectionSubset
  cases hm : f.matched_files with
  | none => simp
  | some sel => simp [List.all_eq_true]

/-- Membership is invariant under insertion sort. -/
theorem mem_insSort (le : α → α → Bool) (l : List α) (x : α) :
    x ∈ insSort le l ↔ x ∈ l :=
  (insSort_perm le l).mem_iff

/-- The selection-subset statement only reads the matched files. -/
theorem selectionSubset_congr (idx : List Record) (f g : FindFiles)
    (h : f.matched_files = g.matched_files) :
    selectionSubset idx f = selectionSubset idx g := by
  unfold selectionSubset
  rw [h]

/-- `_sort_tup` keeps the regex object untouched. -/
theorem sort_tup_regex (f : FindFiles) (attrs : List String) :
    (FindFiles.sort_tup f attrs).1.regex = f.regex := by
  unfold FindFiles.sort_tup
  cases f.matched_files with
  | none => rfl
  | some files =>
      dsimp only
      by_cases hv : (attrs.all (fun a => f.regex.group_values.contains a)) = true
      · rw [if_pos hv]
      · rw [if_neg hv]

/-- `_sort_tup` only permutes the selection, so the subset statement is
preserved. -/
theorem sort_tup_subset (idx : List Record) (f : FindFiles) (attrs : List String)
    (h : selectionSubset idx f = true) :
    selectionSubset idx (FindFiles.sort_tup f attrs).1 = true := by
  unfold FindFiles.sort_tup
  cases hm : f.matched_files with
  | none => exact h
  | some files =>
      dsimp only
      by_cases hv : (attrs.all (fun a => f.regex.group_values.contains a)) = true
      · rw [if_pos hv]
        rw [selectionSubset_iff] at h ⊢
        intro sel hsel r hr
        dsimp only at hsel
        simp only [Option.some.injEq] at hsel
        rw [← hsel] at hr
        exact h files hm r ((mem_insSort _ files r).mp hr)
      · rw [if_neg hv]
        exact h

/-- `sort` keeps the regex object untouched. -/
theorem sort_regex (f : FindFiles) (attrs : List String) (arrays : Option (List XArray))
    (rev : Bool) : (FindFiles.sort f attrs arrays rev).1.regex = f.regex := by
  unfold FindFiles.sort
  dsimp only
  cases arrays with
  | some arr =>
      dsimp only
      cases hxr : FindFiles.sort_xr { f with sort_order := some attrs, sort_reverse := rev }
          arr attrs with
      | ok l => rfl
      | error e => rfl
  | none =>
      dsimp only
      cases hm : f.matched_files with
      | none => rfl
      | some files =>
          dsimp only
          cases he : (FindFiles.sort_tup
              { regex := f.regex, matched_files := some files, sort_order := some attrs,
                sort_reverse := rev } attrs).2 with
          | none => exact sort_tup_regex _ attrs
          | some e => exact sort_tup_regex _ attrs

/-- `sort` only permutes the selection (or leaves it alone), so the
subset statement is preserved. -/
theorem sort_subset (idx : List Record) (f : FindFiles) (attrs : List String)
    (arrays : Option (List XArray)) (rev : Bool) (h : selectionSubset idx f = true) :
    selectionSubset idx (FindFiles.sort f attrs arrays rev).1 = true := by
  unfold FindFiles.sort
  dsimp only
  cases arrays with
  | some arr =>
      dsimp only
      cases hxr : FindFiles.sort_xr { f with sort_order := some attrs, sort_reverse := rev }
          arr attrs with
      | ok l => exact h
      | error e => exact h
  | none =>
      dsimp only
      cases hm : f.matched_files with
      | none => rfl
      | some files =>
          dsimp only
          have hbase : selectionSubset idx
              { regex := f.regex, matched_files := some files, sort_order := some attrs,
                sort_reverse := rev } = true := by
            rw [selectionSubset_iff]
            intro sel hsel r hr
            rw [selectionSubset_iff] at h
            refine h sel ?_ r hr
            rw [hm]
            exact hsel
          cases he : (FindFiles.sort_tup
              { regex := f.regex, matched_files := some files, sort_order := some attrs,
                sort_reverse := rev } attrs).2 with
          | none => exact sort_tup_subset idx _ attrs hbase
          | some e => exact sort_tup_subset idx _ attrs hbase

/-- Membership in the `keep_most_recent` scan loop: every retained record
was already retained or comes from the scanned list, and a newly retained
record's identity prefix clashes with nothing retained before it. -/
theorem kmrLoop_mem : ∀ (l acc : List Record) (x : Record), x ∈ kmrLoop acc l →
    x ∈ acc ∨ (x ∈ l ∧ ∀ e ∈ acc, e.dropLast ≠ x.dropLast) := by
  intro l
  induction l with
  | nil =>
      intro acc x h
      exact Or.inl h
  | cons f fs ih =>
      intro acc x h
      rw [kmrLoop] at h
      by_cases hc : (!(acc.any (fun e => e.dropLast == f.dropLast)) || acc.isEmpty) = true
      · simp only [hc, if_true] at h
        rcases ih (acc ++ [f]) x h with hx | ⟨hxl, hne⟩
        · rcases List.mem_append.mp hx with hx | hx
          · exact Or.inl hx
          · have hxf : x = f := by simpa using hx
            subst hxf
            refine Or.inr ⟨List.mem_cons_self x fs, ?_⟩
            intro e he hpre
            rcases Bool.or_eq_true_iff.mp hc with hany | hemp
            · have hbeq : (e.dropLast == x.dropLast) = true := beq_iff_eq.mpr hpre
              have hmem : acc.any (fun e2 => e2.dropLast == x.dropLast) = true :=
                List.any_eq_true.mpr ⟨e, he, hbeq⟩
              simp [hmem] at hany
            · rw [List.isEmpty_iff] at hemp
              subst hemp
              cases he
        · refine Or.inr ⟨List.mem_cons_of_mem f hxl, ?_⟩
          intro e he
          exact hne e (List.mem_append.mpr (Or.inl he))
      · simp only [hc, if_false, Bool.false_eq_true] at h
        rcases ih acc x h with hx | ⟨hxl, hne⟩
        · exact Or.inl hx
        · exact Or.inr ⟨List.mem_cons_of_mem f hxl, hne⟩

/-- Weak form: the scan loop only ever keeps records of its input. -/
theorem kmrLoop_sub (l acc : List Record) (x : Record) (h : x ∈ kmrLoop acc l) :
    x ∈ acc ∨ x ∈ l := by
  rcases kmrLoop_mem l acc x h with hx | ⟨hxl, _⟩
  · exact Or.inl hx
  · exact Or.inr hxl

/-- `find` keeps the regex object untouched. -/
theorem find_regex (f : FindFiles) (args : List QueryArg) :
    (FindFiles.find f args).1.regex = f.regex := by
  unfold FindFiles.find
  dsimp only
  by_cases he : (searchOut f.regex.combined args).isEmpty = true
  · rw [if_pos he]
  · rw [if_neg he]

/-- `find` only installs records drawn from the index, so the
selection-subset statement is preserved. -/
theorem find_subset (f : FindFiles) (args : List QueryArg)
    (h : selectionSubset f.regex.combined f = true) :
    selectionSubset f.regex.combined (FindFiles.find f args).1 = true := by
  unfold FindFiles.find
  dsimp only
  by_cases he : (searchOut f.regex.combined args).isEmpty = true
  · rw [if_pos he]
    exact h
  · rw [if_neg he]
    rw [selectionSubset_iff]
    intro sel hsel r hr
    dsimp only at hsel
    simp only [Option.some.injEq] at hsel
    rw [← hsel] at hr
    exact mem_searchOut f.regex.combined args r hr

/-- `keep` keeps the regex object untouched. -/
theorem keep_regex (f : FindFiles) (args : List QueryArg) :
    (FindFiles.keep f args).1.regex = f.regex := by
  unfold FindFiles.keep
  dsimp only
  cases hm : f.matched_files with
  | none => rfl
  | some files =>
      dsimp only
      cases hso : f.sort_order with
      | none => rfl
      | some attrs =>
          have := sort_tup_regex
            { regex := f.regex, matched_files := some (searchOut files args),
              sort_order := some attrs, sort_reverse := f.sort_reverse } attrs
          exact this

/-- `keep` narrows the selection to records it already contained, so the
selection-subset statement is preserved. -/
theorem keep_subset (f : FindFiles) (args : List QueryArg)
    (h : selectionSubset f.regex.combined f = true) :
    selectionSubset f.regex.combined (FindFiles.keep f args).1 = true := by
  unfold FindFiles.keep
  dsimp only
  cases hm : f.matched_files with
  | none => exact h
  | some files =>
      dsimp only
      have hbase : ∀ so : Option (List String), selectionSubset f.regex.combined
          { regex := f.regex, matched_files := some (searchOut files args),
            sort_order := so, sort_reverse := f.sort_reverse } = true := by
        intro so
        rw [selectionSubset_iff]
        intro sel hsel r hr
        simp only [Option.some.injEq] at hsel
        rw [← hsel] at hr
        rw [selectionSubset_iff] at h
        exact h files hm r (mem_searchOut files args r hr)
      cases hso : f.sort_order with
      | none => exact hbase none
      | some attrs => exact sort_tup_subset f.regex.combined _ attrs (hbase (some attrs))

/-- `remove` keeps the regex object untouched. -/
theorem remove_regex (f : FindFiles) (args : List String) :
    (FindFiles.remove f args).1.regex = f.regex := by
  unfold FindFiles.remove
  dsimp only
  cases hm : f.matched_files with
  | none => rfl
  | some files =>
      dsimp only
      cases hso : f.sort_order with
      | none => rfl
      | some attrs =>
          exact sort_tup_regex
            { regex := f.regex,
              matched_files :=
                some (files.filter (fun tup => args.all (fun elem => !(tup.contains elem)))),
              sort_order := some attrs, sort_reverse := f.sort_reverse } attrs

/-- `remove` filters the selection, so the selection-subset statement is
preserved. -/
theorem remove_subset (f : FindFiles) (args : List String)
    (h : selectionSubset f.regex.combined f = true) :
    selectionSubset f.regex.combined (FindFiles.remove f args).1 = true := by
  unfold FindFiles.remove
  dsimp only
  cases hm : f.matched_files with
  | none => exact h
  | some files =>
      dsimp only
      have hbase : ∀ so : Option (List String), selectionSubset f.regex.combined
          { regex := f.regex,
            matched_files :=
              some (files.filter (fun tup => args.all (fun elem => !(tup.contains elem)))),
            sort_order := so, sort_reverse := f.sort_reverse } = true := by
        intro so
        rw [selectionSubset_iff]
        intro sel hsel r hr
        simp only [Option.some.injEq] at hsel
        rw [← hsel] at hr
        rw [selectionSubset_iff] at h
        exact h files hm r (List.mem_of_mem_filter hr)
      cases hso : f.sort_order with
      | none => exact hbase none
      | some attrs => exact sort_tup_subset f.regex.combined _ attrs (hbase (some attrs))

/-- `keep_most_recent` keeps the regex object untouched. -/
theorem keep_most_recent_regex (f : FindFiles) :
    (FindFiles.keep_most_recent f).1.regex = f.regex := by
  unfold FindFiles.keep_most_recent
  dsimp only
  cases hm : f.matched_files with
  | none => rfl
  | some sel0 =>
      dsimp only
      cases hs1 : (FindFiles.sort f ["date"] none true).2 with
      | error e => exact sort_regex f ["date"] none true
      | ok v =>
          dsimp only
          cases hm1 : (FindFiles.sort f ["date"] none true).1.matched_files with
          | none => exact sort_regex f ["date"] none true
          | some files =>
              dsimp only
              cases hso : f.sort_order with
              | none => exact sort_regex f ["date"] none true
              | some attrs =>
                  dsimp only
                  have hf2 : ({ (FindFiles.sort f ["date"] none true).1 with
                      matched_files := some (kmrLoop [] files) } : FindFiles).regex = f.regex :=
                    sort_regex f ["date"] none true
                  cases hs2 : (FindFiles.sort
                      { (FindFiles.sort f ["date"] none true).1 with
                        matched_files := some (kmrLoop [] files) } attrs none
                      f.sort_reverse).2 with
                  | ok v2 => exact (sort_regex _ attrs none f.sort_reverse).trans hf2
                  | error e2 => exact (sort_regex _ attrs none f.sort_reverse).trans hf2

/-- `keep_most_recent` only sorts and drops records, so the
selection-subset statement is preserved. -/
theorem keep_most_recent_subset (f : FindFiles)
    (h : selectionSubset f.regex.combined f = true) :
    selectionSubset f.regex.combined (FindFiles.keep_most_recent f).1 = true := by
  unfold FindFiles.keep_most_recent
  dsimp only
  cases hm : f.matched_files with
  | none => exact h
  | some sel0 =>
      dsimp only
      have hsorted := sort_subset f.regex.combined f ["date"] none true h
      cases hs1 : (FindFiles.sort f ["date"] none true).2 with
      | error e => exact hsorted
      | ok v =>
          dsimp only
          cases hm1 : (FindFiles.sort f ["date"] none true).1.matched_files with
          | none => exact hsorted
          | some files =>
              dsimp only
              have hkmr : selectionSubset f.regex.combined
                  { (FindFiles.sort f ["date"] none true).1 with
                    matched_files := some (kmrLoop [] files) } = true := by
                rw [selectionSubset_iff]
                intro sel hsel r hr
                simp only [Option.some.injEq] at hsel
                rw [← hsel] at hr
                rcases kmrLoop_sub files [] r hr with hc | hc
                · cases hc
                · rw [selectionSubset_iff] at hsorted
                  exact hsorted files hm1 r hc
              cases hso : f.sort_order with
              | none => exact hkmr
              | some attrs =>
                  dsimp only
                  cases hs2 : (FindFiles.sort
                      { (FindFiles.sort f ["date"] none true).1 with
                        matched_files := some (kmrLoop [] files) } attrs none
                      f.sort_reverse).2 with
                  | ok v2 =>
                      have := sort_subset f.regex.combined _ attrs none f.sort_reverse hkmr
                      exact this
                  | error e2 =>
                      have := sort_subset f.regex.combined _ attrs none f.sort_reverse hkmr
                      exact this

/-- Every query-algebra operation leaves the shared regex object (the
Index) untouched. -/
theorem applyOp_regex (f : FindFiles) (op : CatalogOp) : (applyOp f op).regex = f.regex := by
  cases op with
  | findOp args => exact find_regex f args
  | keepOp args => exact keep_regex f args
  | removeOp args => exact remove_regex f args
  | sortOp attributes reverse => exact sort_regex f attributes none reverse
  | sortArraysOp attributes arrays reverse => exact sort_regex f attributes (some arrays) reverse
  | keepMostRecentOp => exact keep_most_recent_regex f

/-- Every query-algebra operation preserves the selection-subset
statement with respect to the owning index. -/
theorem applyOp_subset (f : FindFiles) (op : CatalogOp)
    (h : selectionSubset f.regex.combined f = true) :
    selectionSubset f.regex.combined (applyOp f op) = true := by
  cases op with
  | findOp args => exact find_subset f args h
  | keepOp args => exact keep_subset f args h
  | removeOp args => exact remove_subset f args h
  | sortOp attributes reverse => exact sort_subset f.regex.combined f attributes none reverse h
  | sortArraysOp attributes arrays reverse =>
      exact sort_subset f.regex.combined f attributes (some arrays) reverse h
  | keepMostRecentOp => exact keep_most_recent_subset f h

/-- C9.  Selection-subset invariant: starting from any catalog view whose
selection is contained in its index (in particular a fresh Unqueried
view), after every sequence of find/keep/remove/sort/keep_most_recent
operations every record of the selection is still a member of the owning
index's combined set — the algebra narrows and reorders, it never
synthesizes records. -/
theorem selection_subset_invariant (f : FindFiles) (ops : List CatalogOp)
    (h : selectionSubset f.regex.combined f = true) :
    selectionSubset f.regex.combined (applyOps f ops) = true := by
  induction ops generalizing f with
  | nil => exact h
  | cons op ops ih =>
      rw [applyOps]
      have hr := applyOp_regex f op
      have hs := applyOp_subset f op h
      have hnext : selectionSubset (applyOp f op).regex.combined (applyOp f op) = true := by
        rw [hr]
        exact hs
      have := ih (applyOp f op) hnext
      rwa [hr] at this

/-- Witness for the C9 invariant: a fresh catalog driven through a
seven-operation sequence keeps its selection inside the index. -/
theorem selection_subset_invariant_witness :
    selectionSubset c9Catalog.regex.combined c9Catalog = true ∧
    selectionSubset c9Catalog.regex.combined (applyOps c9Catalog c9Ops) = true :=
  ⟨by decide, selection_subset_invariant c9Catalog c9Ops (by decide)⟩

/-- Lexicographic comparison is irreflexive whenever the element
comparison is asymmetric. -/
theorem lexLt_irrefl {lt : α → α → Bool} (hasym : ∀ a b, lt a b = true → lt b a = false)
    (l : List α) : lexLt lt l l = false := by
  cases h : lexLt lt l l
  · rfl
  · have := lexLt_asym hasym l l h
    rw [h] at this
    cases this

/-- String comparison is irreflexive. -/
theorem strLtB_irrefl (a : String) : strLtB a a = false := by
  unfold strLtB
  exact lexLt_irrefl charLt_asym a.data

/-- Key comparison on singleton tuples is string comparison. -/
theorem keyLt_singleton (a b : String) : keyLt [a] [b] = strLtB a b := by
  unfold keyLt lexLt
  by_cases h1 : strLtB a b = true
  · simp [h1]
  · rw [if_neg h1]
    rw [Bool.not_eq_true] at h1
    rw [h1]
    by_cases h2 : strLtB b a = true
    · rw [if_pos h2]
    · rw [if_neg h2]
      rfl

/-- The date-descending comparison used inside `keep_most_recent`,
expressed through plain string comparison of the `date` values. -/
theorem pyTupLe_date (gv : List String) (a b : Record) :
    pyTupLe gv ["date"] true a b = !(strLtB (dateVal gv a) (dateVal gv b)) := by
  have hk : ∀ x : Record, sortKey gv ["date"] x = [dateVal gv x] := by
    intro x
    simp [sortKey, dateVal]
  simp only [pyTupLe, if_true, keyLe, hk, keyLt_singleton]

/-- Records already retained stay retained through the rest of the scan. -/
theorem kmrLoop_acc_mem : ∀ (l acc : List Record) (x : Record), x ∈ acc →
    x ∈ kmrLoop acc l := by
  intro l
  induction l with
  | nil =>
      intro acc x h
      exact h
  | cons f fs ih =>
      intro acc x h
      rw [kmrLoop]
      by_cases hc : (!(acc.any (fun e => e.dropLast == f.dropLast)) || acc.isEmpty) = true
      · rw [if_pos hc]
        exact ih (acc ++ [f]) x (List.mem_append.mpr (Or.inl h))
      · rw [if_neg hc]
        exact ih acc x h

/-- Every identity prefix of the scanned list is represented in the
result of the scan loop. -/
theorem kmrLoop_cover : ∀ (l acc : List Record) (g : Record), g ∈ l →
    ∃ x ∈ kmrLoop acc l, x.dropLast = g.dropLast := by
  intro l
  induction l with
  | nil =>
      intro acc g hg
      cases hg
  | cons f fs ih =>
      intro acc g hg
      rw [kmrLoop]
      by_cases hc : (!(acc.any (fun e => e.dropLast == f.dropLast)) || acc.isEmpty) = true
      · rw [if_pos hc]
        rcases List.mem_cons.mp hg with hgf | hgfs
        · subst hgf
          exact ⟨g, kmrLoop_acc_mem fs (acc ++ [g]) g
            (List.mem_append.mpr (Or.inr (List.mem_cons_self g []))), rfl⟩
        · exact ih (acc ++ [f]) g hgfs
      · rw [if_neg hc]
        rcases List.mem_cons.mp hg with hgf | hgfs
        · subst hgf
          have hany : acc.any (fun e => e.dropLast == g.dropLast) = true := by
            rcases Bool.or_eq_false_iff.mp (Bool.not_eq_true _ |>.mp hc) with ⟨h1, _⟩
            simpa using h1
          rcases List.any_eq_true.mp hany with ⟨e0, he0, hbeq⟩
          exact ⟨e0, kmrLoop_acc_mem fs acc e0 he0, by simpa using hbeq⟩
        · exact ih acc g hgfs

/-- The scan loop never retains two records with the same identity
prefix (given that the accumulator already satisfies this). -/
theorem kmrLoop_pairwise : ∀ (l acc : List Record),
    acc.Pairwise (fun a b => a.dropLast ≠ b.dropLast) →
    (kmrLoop acc l).Pairwise (fun a b => a.dropLast ≠ b.dropLast) := by
  intro l
  induction l with
  | nil =>
      intro acc h
      exact h
  | cons f fs ih =>
      intro acc h
      rw [kmrLoop]
      by_cases hc : (!(acc.any (fun e => e.dropLast == f.dropLast)) || acc.isEmpty) = true
      · rw [if_pos hc]
        refine ih (acc ++ [f]) (List.pairwise_append.mpr ⟨h, by simp, ?_⟩)
        intro a ha b hb
        have hbf : b = f := by simpa using hb
        subst hbf
        intro hpre
        rcases Bool.or_eq_true_iff.mp hc with hany | hemp
        · have hbeq : (a.dropLast == b.dropLast) = true := beq_iff_eq.mpr hpre
          have hmem : acc.any (fun e2 => e2.dropLast == b.dropLast) = true :=
            List.any_eq_true.mpr ⟨a, ha, hbeq⟩
          simp [hmem] at hany
        · rw [List.isEmpty_iff] at hemp
          subst hemp
          cases ha
      · rw [if_neg hc]
        exact ih acc h

/-- In the scan loop over a date-descending list, every retained record
carries a maximal date value among the scanned records sharing its
identity prefix. -/
theorem kmrLoop_max (d : Record → String) : ∀ (l acc : List Record),
    l.Pairwise (fun a b => strLtB (d a) (d b) = false) →
    (∀ e ∈ acc, ∀ y ∈ l, y.dropLast = e.dropLast → strLtB (d e) (d y) = false) →
    ∀ x ∈ kmrLoop acc l, ∀ y ∈ l, y.dropLast = x.dropLast → strLtB (d x) (d y) = false := by
  intro l
  induction l with
  | nil =>
      intro acc _ _ x _ y hy
      cases hy
  | cons f fs ih =>
      intro acc hpw hacc x hx y hy hpre
      rw [kmrLoop] at hx
      rw [List.pairwise_cons] at hpw
      by_cases hc : (!(acc.any (fun e => e.dropLast == f.dropLast)) || acc.isEmpty) = true
      · rw [if_pos hc] at hx
        have hacc2 : ∀ e ∈ acc ++ [f], ∀ y2 ∈ fs, y2.dropLast = e.dropLast →
            strLtB (d e) (d y2) = false := by
          intro e he y2 hy2 hp2
          rcases List.mem_append.mp he with he | he
          · exact hacc e he y2 (List.mem_cons_of_mem f hy2) hp2
          · have hef : e = f := by simpa using he
            subst hef
            exact hpw.1 y2 hy2
        rcases List.mem_cons.mp hy with hyf | hy2
        · subst hyf
          rcases kmrLoop_mem fs (acc ++ [y]) x hx with hxacc | ⟨_, hnew⟩
          · rcases List.mem_append.mp hxacc with hxa | hxa
            · exact hacc x hxa y (List.mem_cons_self y fs) hpre
            · have hxf : x = y := by simpa using hxa
              subst hxf
              exact strLtB_irrefl (d x)
          · exact absurd hpre
              (hnew y (List.mem_append.mpr (Or.inr (List.mem_cons_self y []))))
        · exact ih (acc ++ [f]) hpw.2 hacc2 x hx y hy2 hpre
      · rw [if_neg hc] at hx
        have hacc2 : ∀ e ∈ acc, ∀ y2 ∈ fs, y2.dropLast = e.dropLast →
            strLtB (d e) (d y2) = false := by
          intro e he y2 hy2 hp2
          exact hacc e he y2 (List.mem_cons_of_mem f hy2) hp2
        rcases List.mem_cons.mp hy with hyf | hy2
        · subst hyf
          rcases kmrLoop_mem fs acc x hx with hxacc | ⟨_, hnew⟩
          · exact hacc x hxacc y (List.mem_cons_self y fs) hpre
          · exfalso
            have hany : acc.any (fun e => e.dropLast == y.dropLast) = true := by
              rcases Bool.or_eq_false_iff.mp (Bool.not_eq_true _ |>.mp hc) with ⟨h1, _⟩
              simpa using h1
            rcases List.any_eq_true.mp hany with ⟨e0, he0, hbeq⟩
            have hp0 : e0.dropLast = y.dropLast := by simpa using hbeq
            exact hnew e0 he0 (hp0.trans hpre)
        · exact ih acc hpw.2 hacc2 x hx y hy2 hpre

/-- The selection after a catalog-form `sort` call is a permutation of
the selection before it (or untouched when the sort key is rejected). -/
theorem sort_matched_perm (g : FindFiles) (attrs : List String) (rev : Bool)
    (files : List Record) (hm : g.matched_files = some files) :
    ∃ files', (FindFiles.sort g attrs none rev).1.matched_files = some files' ∧
      files'.Perm files := by
  unfold FindFiles.sort FindFiles.sort_tup
  dsimp only
  rw [hm]
  dsimp only
  by_cases hv : (attrs.all (fun a => g.regex.group_values.contains a)) = true
  · rw [if_pos hv]
    dsimp only
    exact ⟨_, rfl, insSort_perm _ files⟩
  · rw [if_neg hv]
    dsimp only
    exact ⟨files, rfl, List.Perm.refl files⟩

/-- C4.  `keep_most_recent` on a Queried selection whose schema's last
group is the recency key (`date` sits at the last schema position and
records have schema arity, so the sort key `dateVal` is exactly the last
record entry and `dropLast` is the identity prefix): the surviving
selection contains exactly one record per identity prefix occurring in
the old selection — a record of the old selection whose date value is
greatest (never lexically below any record sharing its prefix) — and
drops every other record sharing that prefix. -/
theorem keep_most_recent_dedup (f : FindFiles) (sel : List Record)
    (hm : f.matched_files = some sel)
    (hdate : f.regex.group_values.indexOf "date" + 1 = f.regex.group_values.length)
    (harity : ∀ r ∈ sel, r.length = f.regex.group_values.length) :
    ∃ sel', (FindFiles.keep_most_recent f).1.matched_files = some sel' ∧
      (∀ r ∈ sel', r ∈ sel) ∧
      sel'.Pairwise (fun a b => a.dropLast ≠ b.dropLast) ∧
      (∀ r ∈ sel, ∃ x ∈ sel', x.dropLast = r.dropLast) ∧
      (∀ x ∈ sel', ∀ r ∈ sel, r.dropLast = x.dropLast →
        strLtB (dateVal f.regex.group_values x) (dateVal f.regex.group_values r) = false) ∧
      (∀ r ∈ sel, r.dropLast ++ [dateVal f.regex.group_values r] = r) := by
  have hlast : ∀ r ∈ sel, r.dropLast ++ [dateVal f.regex.group_values r] = r := by
    intro r hr
    have hlen := harity r hr
    have hne : r ≠ [] := by
      intro h0
      rw [h0] at hlen
      simp only [List.length_nil] at hlen
      omega
    have hlt : r.length - 1 < r.length := by
      cases hr2 : r with
      | nil => exact absurd hr2 hne
      | cons a t => simp
    have hidx : f.regex.group_values.indexOf "date" = r.length - 1 := by omega
    have h1 : dateVal f.regex.group_values r = r.getLast hne := by
      unfold dateVal
      rw [hidx, List.getD_eq_getElem r "" hlt, List.getLast_eq_getElem r hne]
    rw [h1, List.dropLast_append_getLast hne]
  have hmemd : "date" ∈ f.regex.group_values := by
    have : f.regex.group_values.indexOf "date" < f.regex.group_values.length := by omega
    exact List.indexOf_lt_length.mp this
  have hvalid : (["date"].all (fun a => f.regex.group_values.contains a)) = true := by
    simp [hmemd]
  have hsort1 : FindFiles.sort f ["date"] none true =
      ({ regex := f.regex,
         matched_files := some (insSort (pyTupLe f.regex.group_values ["date"] true) sel),
         sort_order := some ["date"], sort_reverse := true }, .ok .self) := by
    unfold FindFiles.sort FindFiles.sort_tup
    dsimp only
    rw [hm]
    dsimp only
    rw [if_pos hvalid]
  set sorted := insSort (pyTupLe f.regex.group_values ["date"] true) sel with hsortdef
  have hperm : sorted.Perm sel := insSort_perm _ sel
  have hpw : sorted.Pairwise (fun a b =>
      strLtB (dateVal f.regex.group_values a) (dateVal f.regex.group_values b) = false) := by
    have h0 := insSort_pairwise (pyTupLe f.regex.group_values ["date"] true)
      (pyTupLe_total f.regex.group_values ["date"] true)
      (pyTupLe_trans f.regex.group_values ["date"] true) sel
    refine h0.imp ?_
    intro a b hab
    rw [pyTupLe_date] at hab
    simpa using hab
  have hsub0 : ∀ x ∈ kmrLoop [] sorted, x ∈ sel := by
    intro x hx
    rcases kmrLoop_sub sorted [] x hx with h0 | h0
    · cases h0
    · exact hperm.mem_iff.mp h0
  have hpair0 : (kmrLoop [] sorted).Pairwise (fun a b => a.dropLast ≠ b.dropLast) :=
    kmrLoop_pairwise sorted [] (by simp)
  have hcov0 : ∀ r ∈ sel, ∃ x ∈ kmrLoop [] sorted, x.dropLast = r.dropLast := by
    intro r hr
    exact kmrLoop_cover sorted [] r (hperm.mem_iff.mpr hr)
  have hmax0 : ∀ x ∈ kmrLoop [] sorted, ∀ r ∈ sel, r.dropLast = x.dropLast →
      strLtB (dateVal f.regex.group_values x) (dateVal f.regex.group_values r) = false := by
    intro x hx r hr hp
    exact kmrLoop_max (dateVal f.regex.group_values) sorted [] hpw (by simp) x hx r
      (hperm.mem_iff.mpr hr) hp
  unfold FindFiles.keep_most_recent
  dsimp only
  rw [hm]
  dsimp only
  rw [hsort1]
  dsimp only
  cases hso : f.sort_order with
  | none => exact ⟨kmrLoop [] sorted, rfl, hsub0, hpair0, hcov0, hmax0, hlast⟩
  | some attrs =>
      dsimp only
      obtain ⟨sel'', hms, hp2⟩ := sort_matched_perm
        { regex := f.regex, matched_files := some (kmrLoop [] sorted),
          sort_order := some ["date"], sort_reverse := true }
        attrs f.sort_reverse (kmrLoop [] sorted) rfl
      cases hs2 : (FindFiles.sort
          { regex := f.regex, matched_files := some (kmrLoop [] sorted),
            sort_order := some ["date"], sort_reverse := true }
          attrs none f.sort_reverse).2 with
      | ok v2 =>
          refine ⟨sel'', hms, ?_, ?_, ?_, ?_, hlast⟩
          · intro r hr
            exact hsub0 r (hp2.mem_iff.mp hr)
          · exact (hp2.symm.pairwise_iff (fun hab => Ne.symm hab)).mp hpair0
          · intro r hr
            obtain ⟨x, hx, hpx⟩ := hcov0 r hr
            exact ⟨x, hp2.mem_iff.mpr hx, hpx⟩
          · intro x hx r hr hp
            exact hmax0 x (hp2.mem_iff.mp hx) r hr hp
      | error e2 =>
          refine ⟨sel'', hms, ?_, ?_, ?_, ?_, hlast⟩
          · intro r hr
            exact hsub0 r (hp2.mem_iff.mp hr)
          · exact (hp2.symm.pairwise_iff (fun hab => Ne.symm hab)).mp hpair0
          · intro r hr
            obtain ⟨x, hx, hpx⟩ := hcov0 r hr
            exact ⟨x, hp2.mem_iff.mpr hx, hpx⟩
          · intro x hx r hr hp
            exact hmax0 x (hp2.mem_iff.mp hx) r hr hp

/-- Witness for the C4 theorem: of `(strong, T, 20200101)` and
`(strong, T, 20210101)` only the `20210101` record survives, and the
deduplicated selection satisfies every clause of the theorem. -/
theorem keep_most_recent_dedup_witness :
    (c4Catalog.matched_files = some [["strong", "T", "20200101"], ["strong", "T", "20210101"]] ∧
      c4Catalog.regex.group_values.indexOf "date" + 1 = c4Catalog.regex.group_values.length ∧
      (∀ r ∈ [["strong", "T", "20200101"], ["strong", "T", "20210101"]],
        List.length r = c4Catalog.regex.group_values.length)) ∧
    (FindFiles.keep_most_recent c4Catalog).1.matched_files = some [["strong", "T", "20210101"]] ∧
    (∃ sel', (FindFiles.keep_most_recent c4Catalog).1.matched_files = some sel' ∧
      (∀ r ∈ sel', r ∈ [["strong", "T", "20200101"], ["strong", "T", "20210101"]]) ∧
      sel'.Pairwise (fun a b => a.dropLast ≠ b.dropLast) ∧
      (∀ r ∈ [["strong", "T", "20200101"], ["strong", "T", "20210101"]],
        ∃ x ∈ sel', x.dropLast = r.dropLast) ∧
      (∀ x ∈ sel', ∀ r ∈ [["strong", "T", "20200101"], ["strong", "T", "20210101"]],
        r.dropLast = x.dropLast →
        strLtB (dateVal c4Catalog.regex.group_values x)
          (dateVal c4Catalog.regex.group_values r) = false) ∧
      (∀ r ∈ [["strong", "T", "20200101"], ["strong", "T", "20210101"]],
        r.dropLast ++ [dateVal c4Catalog.regex.group_values r] = r)) :=
  ⟨⟨rfl, by decide, by decide⟩, by decide,
    keep_most_recent_dedup c4Catalog [["strong", "T", "20200101"], ["strong", "T", "20210101"]]
      rfl (by decide) (by decide)⟩

/-- Reads of already-allocated list objects are unaffected by extending
the heap. -/
theorem read_append (st ext : Store) (i : Nat) (h : i < st.length) :
    Store.read (st ++ ext) i = Store.read st i := by
  unfold Store.read
  simp [List.getD, List.getElem?_append_left h]

/-- `_sort_tup` only ever allocates: the heap grows and no existing list
object is modified. -/
theorem sort_tup_store_extends (st : Store) (v : HFindFiles) (attrs : List String) :
    ∃ ext, (HFindFiles.sort_tup st v attrs).1 = st ++ ext := by
  unfold HFindFiles.sort_tup
  cases v.matched_files with
  | none => exact ⟨[], by simp⟩
  | some r =>
      dsimp only
      by_cases hv : (attrs.all (fun a => v.regex.group_values.contains a)) = true
      · rw [if_pos hv]
        exact ⟨_, rfl⟩
      · rw [if_neg hv]
        exact ⟨[], by simp⟩

/-- `remove` only ever allocates. -/
theorem remove_store_extends (st : Store) (v : HFindFiles) (args : List String) :
    ∃ ext, (HFindFiles.remove st v args).1 = st ++ ext := by
  unfold HFindFiles.remove
  cases v.matched_files with
  | none => exact ⟨[], by simp⟩
  | some r =>
      dsimp only
      cases v.sort_order with
      | none => exact ⟨_, rfl⟩
      | some attrs =>
          obtain ⟨ext2, he2⟩ := sort_tup_store_extends
            (st ++ [(Store.read st r).filter
              (fun tup => args.all (fun elem => !(tup.contains elem)))])
            { v with matched_files := some st.length, sort_order := some attrs } attrs
          refine ⟨[(Store.read st r).filter
            (fun tup => args.all (fun elem => !(tup.contains elem)))] ++ ext2, ?_⟩
          rw [← List.append_assoc]
          exact he2

/-- `keep` only ever allocates. -/
theorem keep_store_extends (st : Store) (v : HFindFiles) (args : List QueryArg) :
    ∃ ext, (HFindFiles.keep st v args).1 = st ++ ext := by
  unfold HFindFiles.keep
  cases v.matched_files with
  | none => exact ⟨[], by simp⟩
  | some r =>
      dsimp only
      cases v.sort_order with
      | none => exact ⟨_, rfl⟩
      | some attrs =>
          obtain ⟨ext2, he2⟩ := sort_tup_store_extends
            (st ++ [searchOut (Store.read st r) args])
            { v with matched_files := some st.length, sort_order := some attrs } attrs
          refine ⟨[searchOut (Store.read st r) args] ++ ext2, ?_⟩
          rw [← List.append_assoc]
          exact he2

/-- Every selection-mutating operation only ever allocates. -/
theorem applyHOp_store_extends (st : Store) (v : HFindFiles) (op : HOp) :
    ∃ ext, (applyHOp st v op).1 = st ++ ext := by
  cases op with
  | removeOp args => exact remove_store_extends st v args
  | keepOp args => exact keep_store_extends st v args

/-- A sequence of selection-mutating operations only ever allocates. -/
theorem applyHOps_store_extends (st : Store) (v : HFindFiles) (ops : List HOp) :
    ∃ ext, (applyHOps st v ops).1 = st ++ ext := by
  induction ops generalizing st v with
  | nil => exact ⟨[], by simp [applyHOps]⟩
  | cons op ops ih =>
      obtain ⟨ext1, h1⟩ := applyHOp_store_extends st v op
      obtain ⟨ext2, h2⟩ := ih (applyHOp st v op).1 (applyHOp st v op).2
      refine ⟨ext1 ++ ext2, ?_⟩
      rw [applyHOps]
      rw [h2, h1, List.append_assoc]

/-- C6.  Copy independence: `copy()` returns a view sharing the same
regex object (the Index) and even the same `_matched_files` list
reference, without any allocation or re-scan; and after any sequence of
`remove` / `keep` calls on the copy, the original view's selection —
read through the final heap — is exactly what it was before, because
those operations rebind freshly allocated lists and never mutate the
shared one.  Since `copy` returns an identical view, the statement
covers mutation of either view leaving the other unchanged. -/
theorem copy_independence (st : Store) (v : HFindFiles) (ops : List HOp)
    (hvalid : ∀ r, v.matched_files = some r → r < st.length) :
    HFindFiles.copy v = v ∧
    HFindFiles.selection (applyHOps st (HFindFiles.copy v) ops).1 v =
      HFindFiles.selection st v := by
  refine ⟨rfl, ?_⟩
  obtain ⟨ext, hext⟩ := applyHOps_store_extends st (HFindFiles.copy v) ops
  rw [hext]
  unfold HFindFiles.selection
  cases hm : v.matched_files with
  | none => rfl
  | some r =>
      simp [read_append st ext r (hvalid r hm)]

/-- Witness for the C6 theorem: removing and keeping on the copy leaves
the original's selection untouched in the final heap. -/
theorem copy_independence_witness :
    (∀ r, c6View.matched_files = some r → r < c6Store.length) ∧
    (HFindFiles.copy c6View = c6View ∧
      HFindFiles.selection
        (applyHOps c6Store (HFindFiles.copy c6View)
          [.removeOp ["X"], .keepOp [.str "A"]]).1 c6View =
        HFindFiles.selection c6Store c6View) :=
  ⟨by
      intro r hr
      simp [c6View] at hr
      simp [c6Store, ← hr],
    copy_independence c6Store c6View [.removeOp ["X"], .keepOp [.str "A"]]
      (by
        intro r hr
        simp [c6View] at hr
        simp [c6Store, ← hr])⟩

/-- C8.  Construction check of the PatternSpec.  The constructor rejects
a template missing a group placeholder and accepts one containing every
group placeholder together with `<ft>` — but, contrary to the claim (and
to the constructor's own error message, which demands "all group_name
values and the file type ft"), a template containing every group
placeholder while missing the `<ft>` extension placeholder is accepted
without error: the `__init__` loop ranges over `group_names.values()`
only and never tests `"<ft>"`. -/
theorem regex_lookup_placeholder_check :
    RegexLookup.init_check ["compset"] "ensemble-simulations/<compset>" = true ∧
    RegexLookup.init_check ["compset", "ensemble"] "ensemble-simulations/<compset><ft>" = false ∧
    RegexLookup.init_check ["compset"] "ensemble-simulations/<compset><ft>" = true := by
  decide

/-- C1 counterexample.  The round-trip contract fails on the code: the
scan of root `/d` over a disk holding the single file
`/d/s/ensemble-simulations/C/C-e-w/a/T-h0-20200101.nc` extracts the
record `(C, e, w, T, h0, 20200101)` (the pattern is matched by
`re.search` anywhere in the path, and the directory between the
simulation and attribute segments is matched by `.*`), but resolving
that record renders the canonical template location
`/d/ensemble-simulations/C/C-e-w/aggregate/T-h0-20200101.nc`, which is
not the path the record was scanned from and does not exist on the
modelled disk. -/
theorem scan_round_trip_counterexample :
    scanRecords "/d" c1Fs = [["C", "e", "w", "T", "h0", "20200101"]] ∧
    defaultReverseSearch "/d" ["C", "e", "w", "T", "h0", "20200101"] ".nc" =
      "/d/ensemble-simulations/C/C-e-w/aggregate/T-h0-20200101.nc" ∧
    defaultReverseSearch "/d" ["C", "e", "w", "T", "h0", "20200101"] ".nc" ≠ c1ScannedPath ∧
    defaultReverseSearch "/d" ["C", "e", "w", "T", "h0", "20200101"] ".nc" ∉ c1Fs := by
  decide

/-- C1 amended.  The round trip holds exactly for canonically placed
files: for every record extracted during a scan from a candidate path
that coincides with the record's rendered template location under the
root, resolving the record yields that scanned path, the path exists on
the modelled disk, and re-extracting the resolved path with the same
pattern yields the record again.  (For files matched at non-canonical
locations the resolved path differs from the scanned one, per the
counterexample.) -/
theorem round_trip_canonical_amended (root : String) (fs : List String) (p : String) (r : Record)
    (hp : p ∈ scanCandidates root ".nc" fs)
    (hr : reSearchDefault p = some r)
    (hcanon : defaultReverseSearch root r ".nc" = p) :
    defaultReverseSearch root r ".nc" = p ∧ p ∈ fs ∧
    reSearchDefault (defaultReverseSearch root r ".nc") = some r := by
  refine ⟨hcanon, ?_, ?_⟩
  · exact List.mem_of_mem_filter hp
  · rw [hcanon]
    exact hr

/-- Witness for the amended C1 theorem: a file at its canonical template
location under `/d` scans to the record `(C, e, w, T, h0, 20200101)`,
resolves back to itself, and re-extracts to the same record. -/
theorem round_trip_canonical_amended_witness :
    (c1CanonicalPath ∈ scanCandidates "/d" ".nc" c1CanonicalFs ∧
      reSearchDefault c1CanonicalPath = some ["C", "e", "w", "T", "h0", "20200101"] ∧
      defaultReverseSearch "/d" ["C", "e", "w", "T", "h0", "20200101"] ".nc" =
        c1CanonicalPath) ∧
    (defaultReverseSearch "/d" ["C", "e", "w", "T", "h0", "20200101"] ".nc" = c1CanonicalPath ∧
      c1CanonicalPath ∈ c1CanonicalFs ∧
      reSearchDefault (defaultReverseSearch "/d" ["C", "e", "w", "T", "h0", "20200101"] ".nc") =
        some ["C", "e", "w", "T", "h0", "20200101"]) :=
  ⟨⟨by decide, by decide, by decide⟩,
    round_trip_canonical_amended "/d" c1CanonicalFs c1CanonicalPath
      ["C", "e", "w", "T", "h0", "20200101"] (by decide) (by decide) (by decide)⟩
